import Mathlib

/-!
# CardMatchingFight: dealer / player turn protocol

A shallow embedding of `src/main.cpp`.  The shared globals of the program
(`deck`, `hands`, `gameFinished`, `play`, `playerReady`, `turns`) form the
record `Game`.  Each straight-line block of `dealer` and `player` that lies
between two blocking calls (`pthread_cond_wait`) is a function on `Game`;
the blocks are put together in a labelled transition system `step` on `Sys`,
which adds the program positions of the dealer thread and of the player
threads.

How the thread primitives are read:
* a wait `if (!flag) pthread_cond_wait(...)` (lines 133, 180, 188, 237) is passed
  in `step` only when the flag is set: `enabled` asks for the position of the
  thread (`standsAt`) and for the flag (`signalled`).  The program does not
  test the flag again after the wait, so a wait that returns without a signal
  lets the thread go on with the flag unset: `stepAny` has these moves too;
* the wait of line 265 has no flag: in `step` a player blocked there is released
  only by `pthread_cond_broadcast(&playCond)` (lines 168 and 203), see `wakeAll`;
  in `stepAny` it may also return by itself (`Label.playerWake`);
* the `pthread_cond_signal(&playCond)` of a winner (line 319) is received by the
  dealer: no player is blocked on `playCond` while `play` is true (`Inv.noWaiter`);
* a block between two waits or between two of the dealer's loops is atomic: log
  and screen output, and the mutexes that only protect single accesses, are
  left out.

The random generator is not modelled: the outcome of `std::shuffle` (some
permutation of the deck) and the value of `rng->gen()` are parameters of the
steps.
-/

namespace CardMatchingFight

set_option autoImplicit false

/-! ## Constants (lines 25-28) -/

abbrev NUM_SUITS : Nat := 4
abbrev NUM_RANKS : Nat := 13
abbrev NUM_PLAYERS : Nat := 3
abbrev NUM_ROUNDS : Nat := 3

/-- A seat index `0 .. NUM_PLAYERS - 1`, the range of `playerIndex`. -/
abbrev Seat := Fin NUM_PLAYERS

/-- Write `v` at index `i` of a `NUM_PLAYERS`-element array. -/
def setAt {α : Type} (a : Seat → α) (i : Seat) (v : α) : Seat → α :=
  fun j => if j = i then v else a j

/-! ## The deck (lines 55-63) -/

/-- The function `createDeck`: for each suit, for each rank `r`, `deck.push_back(r)`. -/
def createDeck : List Int :=
  (List.range NUM_SUITS).foldl
    (fun deck _ => (List.range NUM_RANKS).foldl (fun deck r => deck ++ [(r : Int)]) deck) []

/-! ## Shared state (lines 88-112) -/

/-- The global variables shared by the dealer and the players.  A hand holds a
card, or `-1` when it is empty. -/
structure Game where
  deck : List Int
  hands : Seat → Int
  gameFinished : Bool
  play : Bool
  playerReady : Seat → Bool
  turns : Seat → Bool
deriving DecidableEq

/-- The globals when the threads are created: `deck = createDeck()`, the flags
`false`, and `hands[i] = -1`, `playerReady[i] = false` from `main` (lines 392-397). -/
def Game.initial : Game :=
  { deck := createDeck
    hands := fun _ => -1
    gameFinished := false
    play := false
    playerReady := fun _ => false
    turns := fun _ => false }

/-- Number of occupied hands (hands that are not `-1`). -/
def occupied (hands : Seat → Int) : Nat :=
  (List.finRange NUM_PLAYERS).countP (fun i => hands i != -1)

/-! ## Dealer blocks -/

/-- Lines 137-142: every `playerReady[i]` is set to `false`. -/
def resetReady (g : Game) : Game :=
  (List.finRange NUM_PLAYERS).foldl
    (fun g i => { g with playerReady := setAt g.playerReady i false }) g

/-- Line 151: `shuffleDeck` leaves the deck in the order `shuffled` chosen by
the generator (a permutation of the deck, see `enabled`). -/
def shuffleDeck (g : Game) (shuffled : List Int) : Game :=
  { g with deck := shuffled }

/-- Lines 155-157, one pass of the dealing loop for the hand of seat `i`:
`card = deck.front(); deck.pop_front(); hand = card`.  The result is `none`
when the front of an empty pile is taken. -/
def dealOne (g : Game) (i : Seat) : Option Game :=
  match g.deck with
  | [] => none
  | card :: rest => some { g with deck := rest, hands := setAt g.hands i card }

/-- Lines 153-158: `for (auto &hand : hands)`, one card to each hand. -/
def deal (g : Game) : Option Game :=
  (List.finRange NUM_PLAYERS).foldlM dealOne g

/-- Lines 160-163: every `turns[i]` is set to `false`. -/
def resetTurns (g : Game) : Game :=
  (List.finRange NUM_PLAYERS).foldl
    (fun g i => { g with turns := setAt g.turns i false }) g

/-- Lines 166-169 and 201-204: `play = true` (the broadcast acts on the
program positions, see `wakeAll`). -/
def openRound (g : Game) : Game :=
  { g with play := true }

/-- Lines 173-176 and 195-198: `turns[i] = true`. -/
def grant (g : Game) (i : Seat) : Game :=
  { g with turns := setAt g.turns i true }

/-- Line 172: `startingPlayer = round % NUM_PLAYERS`. -/
def startingPlayer (round : Nat) : Seat :=
  ⟨round % NUM_PLAYERS, Nat.mod_lt _ (by decide)⟩

/-- Lines 160-176: the dealer resets the turn flags, opens the round and
grants the turn to the starting player of round `round`. -/
def resetAndGrant (round : Nat) (g : Game) : Game :=
  grant (openRound (resetTurns g)) (startingPlayer round)

/-- Line 193: `gameFinished = true`. -/
def setFinished (g : Game) : Game :=
  { g with gameFinished := true }

/-- Lines 194-199: the dealer sets every `turns[i]` to `true`. -/
def grantAll (g : Game) : Game :=
  (List.finRange NUM_PLAYERS).foldl grant g

/-! ## Player blocks -/

/-- Line 224: `nextPlayerIndex = (playerIndex + 1) % NUM_PLAYERS`. -/
def nextPlayerIndex (i : Seat) : Seat :=
  ⟨(i.val + 1) % NUM_PLAYERS, Nat.mod_lt _ (by decide)⟩

/-- Lines 226-230 and 259-263: `playerReady[playerIndex] = true`. -/
def signalReady (i : Seat) (g : Game) : Game :=
  { g with playerReady := setAt g.playerReady i true }

/-- Lines 343-344 and 357-358: `turns[playerIndex] = false; turns[nextPlayerIndex] = true`. -/
def passTurn (i : Seat) (g : Game) : Game :=
  { g with turns := setAt (setAt g.turns i false) (nextPlayerIndex i) true }

/-- Lines 242-267, the branch `!play` of a granted player: put the held card
(if any) back, wake the next player, signal ready. -/
def playerCleanup (i : Seat) (g : Game) : Game :=
  let g1 : Game :=
    if g.hands i ≠ -1 then
      { g with deck := g.deck ++ [g.hands i], hands := setAt g.hands i (-1) }
    else g
  signalReady i (grant g1 (nextPlayerIndex i))

/-- Lines 274-348, a live turn of player `i`; `coin` is the value of
`rng->gen()`.  The result is `none` when the front of an empty pile is taken. -/
def playerTurn (i : Seat) (coin : Int) (g : Game) : Option Game :=
  match g.deck with
  | [] => none
  | card :: rest =>
    let g1 : Game := { g with deck := rest }
    if card = g1.hands i then
      some { g1 with deck := g1.deck ++ [card], play := false }
    else
      let g2 : Game :=
        if coin = 0 then
          { g1 with deck := g1.deck ++ [card] }
        else
          { g1 with deck := g1.deck ++ [g1.hands i], hands := setAt g1.hands i card }
      some (passTurn i g2)

/-- Lines 352-362: the hand-off of a player that leaves its loop. -/
def playerExit (i : Seat) (g : Game) : Game :=
  passTurn i g

/-! ## Program positions and the transition system -/

/-- Where a player thread stands: before line 227, at the loop test of line
233, at the turn wait of line 237, at the round-open wait of line 265, or
after its `return`. -/
inductive PlayerPc where
  | start
  | loopTop
  | turnWait
  | openWait
  | exited
deriving DecidableEq

/-- Where the dealer thread stands: at a ready wait (lines 131-135 or
186-190), before the shuffle of line 144, before the turn reset of line 160,
before `play = true` of line 166, before the grant of line 172, at the
round-close wait (line 180), before the grants of lines 194-199, before the
final broadcast of lines 201-204, or after its `return`. -/
inductive DealerPc where
  | awaitReady
  | atDeal
  | atTurnReset
  | atOpen
  | atGrant
  | awaitClose
  | finishGrant
  | finishOpen
  | done
deriving DecidableEq

/-- The globals together with the dealer's loop counter `round` and the
program positions of the threads. -/
structure Sys where
  g : Game
  round : Nat
  dealerPc : DealerPc
  pc : Seat → PlayerPc
deriving DecidableEq

/-- The state when all threads have been created. -/
def Sys.initial : Sys :=
  { g := Game.initial
    round := 0
    dealerPc := .awaitReady
    pc := fun _ => .start }

/-- What a player does once its turn wait (line 237) is over: lines 240-348,
with the position it reaches. -/
def playerGranted (i : Seat) (coin : Int) (g : Game) : Option (Game × PlayerPc) :=
  if !g.play then
    some (playerCleanup i g, .openWait)
  else if g.gameFinished then
    some (playerExit i g, .exited)
  else
    (playerTurn i coin g).map (fun g1 => (g1, .loopTop))

/-- The loop test of line 233: a finished game sends the player to its exit
hand-off (lines 352-362), otherwise it goes to the turn wait. -/
def playerLoop (i : Seat) (g : Game) : Game × PlayerPc :=
  if g.gameFinished then (playerExit i g, .exited) else (g, .turnWait)

/-- The effect of `pthread_cond_broadcast(&playCond)` on the players: each one
blocked at line 265 returns to the loop test. -/
def wakeAll (pc : Seat → PlayerPc) : Seat → PlayerPc :=
  fun i => if pc i = .openWait then .loopTop else pc i

/-- All `playerReady` flags are set (the dealer's waits of lines 131-135 and 186-190). -/
def allReady (g : Game) : Bool :=
  (List.finRange NUM_PLAYERS).all (fun i => g.playerReady i)

/-- The steps of the threads: for a player its start (lines 226-230), the loop
test (line 233), the blocks after the turn wait (lines 240-348) and the return
of the round-open wait (lines 265-267); for the dealer the ready reset (lines
130-142), shuffle and deal (lines 144-158), the turn reset (lines 160-163), the
round opening (lines 165-169), the grant (lines 171-176), the round close
(lines 178-183) and the three blocks of the end (lines 185-193, 194-199,
201-206). -/
inductive Label where
  | playerStart (i : Seat)
  | playerLoop (i : Seat)
  | playerGranted (i : Seat) (coin : Int)
  | playerWake (i : Seat)
  | dealerResetReady
  | dealerDeal (shuffled : List Int)
  | dealerResetTurns
  | dealerOpen
  | dealerGrant
  | dealerClose
  | dealerSetFinished
  | dealerGrantAll
  | dealerOpenFinal
deriving DecidableEq

/-- Whether the thread of a step stands at that step (for the deal also:
`shuffled` is a permutation of the pile). -/
def standsAt : Label → Sys → Bool
  | .playerStart i, s => s.pc i = .start
  | .playerLoop i, s => s.pc i = .loopTop
  | .playerGranted i _, s => s.pc i = .turnWait
  | .playerWake i, s => s.pc i = .openWait
  | .dealerResetReady, s => s.dealerPc = .awaitReady && decide (s.round < NUM_ROUNDS)
  | .dealerDeal shuffled, s => s.dealerPc = .atDeal && decide (shuffled.Perm s.g.deck)
  | .dealerResetTurns, s => s.dealerPc = .atTurnReset
  | .dealerOpen, s => s.dealerPc = .atOpen
  | .dealerGrant, s => s.dealerPc = .atGrant
  | .dealerClose, s => s.dealerPc = .awaitClose
  | .dealerSetFinished, s => s.dealerPc = .awaitReady && decide (¬ s.round < NUM_ROUNDS)
  | .dealerGrantAll, s => s.dealerPc = .finishGrant
  | .dealerOpenFinal, s => s.dealerPc = .finishOpen

/-- Whether the wait in front of a step has its flag set: `turns[i]` for the
turn wait, all `playerReady` for the ready waits, `!play` for the round-close
wait.  The round-open wait has no flag of its own (the broadcast acts through
`wakeAll`).  Steps without a wait need nothing. -/
def signalled : Label → Sys → Bool
  | .playerGranted i _, s => s.g.turns i
  | .playerWake _, _ => false
  | .dealerResetReady, s => allReady s.g
  | .dealerClose, s => !s.g.play
  | .dealerSetFinished, s => allReady s.g
  | _, _ => true

/-- Whether the thread of a step stands at that step and its wait has been
signalled. -/
def enabled (l : Label) (s : Sys) : Bool :=
  standsAt l s && signalled l s

/-- The effect of a step; `none` is the fault of a draw from an empty pile. -/
def exec : Label → Sys → Option Sys
  | .playerStart i, s =>
      some { s with g := signalReady i s.g, pc := setAt s.pc i .loopTop }
  | .playerLoop i, s =>
      some { s with g := (playerLoop i s.g).1, pc := setAt s.pc i (playerLoop i s.g).2 }
  | .playerGranted i coin, s =>
      (playerGranted i coin s.g).map
        (fun r => { s with g := r.1, pc := setAt s.pc i r.2 })
  | .playerWake i, s =>
      some { s with pc := setAt s.pc i .loopTop }
  | .dealerResetReady, s =>
      some { s with g := resetReady s.g, dealerPc := .atDeal }
  | .dealerDeal shuffled, s =>
      (deal (shuffleDeck s.g shuffled)).map
        (fun g1 => { s with g := g1, dealerPc := .atTurnReset })
  | .dealerResetTurns, s =>
      some { s with g := resetTurns s.g, dealerPc := .atOpen }
  | .dealerOpen, s =>
      some { s with g := openRound s.g, dealerPc := .atGrant, pc := wakeAll s.pc }
  | .dealerGrant, s =>
      some { s with g := grant s.g (startingPlayer s.round), dealerPc := .awaitClose }
  | .dealerClose, s =>
      some { s with round := s.round + 1, dealerPc := .awaitReady }
  | .dealerSetFinished, s =>
      some { s with g := setFinished s.g, dealerPc := .finishGrant }
  | .dealerGrantAll, s =>
      some { s with g := grantAll s.g, dealerPc := .finishOpen }
  | .dealerOpenFinal, s =>
      some { s with g := openRound s.g, dealerPc := .done, pc := wakeAll s.pc }

/-- One step of the system when every wait returns only after its signal:
`none` when the step is not enabled or faults. -/
def step (l : Label) (s : Sys) : Option Sys :=
  if enabled l s then exec l s else none

/-- A schedule of steps, run from `s`. -/
def run : List Label → Sys → Option Sys
  | [], s => some s
  | l :: ls, s => (step l s).bind (run ls)

/-- One step of the system when a wait may also return without its signal: the
thread only has to stand at the step. -/
def stepAny (l : Label) (s : Sys) : Option Sys :=
  if standsAt l s then exec l s else none

/-- A schedule of steps in which waits may return without their signal. -/
def runAny : List Label → Sys → Option Sys
  | [], s => some s
  | l :: ls, s => (stepAny l s).bind (runAny ls)

/-- The scenario of the specification: hands `[2, 7, 2]` were dealt, player 0
holds the turn and the front card of the pile is `2`. -/
def scenarioWin : Game :=
  { deck := [2, 0, 1, 3, 4, 5, 6, 8, 9, 10, 11, 12, 0, 1, 3, 4, 5, 6, 7, 8, 9, 10, 11, 12,
             0, 1, 3, 4, 5, 6, 7, 8, 9, 10, 11, 12, 0, 1, 2, 3, 4, 5, 6, 7, 8, 9, 10, 11, 12]
    hands := ![2, 7, 2]
    gameFinished := false
    play := true
    playerReady := ![false, false, false]
    turns := ![true, false, false] }

/-- The same deal with front card `5`: no match for player 0. -/
def scenarioNoMatch : Game :=
  { deck := [5, 0, 1, 3, 4, 6, 8, 9, 10, 11, 12, 0, 1, 3, 4, 5, 6, 7, 8, 9, 10, 11, 12,
             0, 1, 2, 3, 4, 5, 6, 7, 8, 9, 10, 11, 12, 0, 1, 2, 3, 4, 5, 6, 7, 8, 9, 10, 11, 12]
    hands := ![2, 7, 2]
    gameFinished := false
    play := true
    playerReady := ![false, false, false]
    turns := ![true, false, false] }

/-- The state after the win of player 0 in `scenarioWin`: `play` is false and
player 0 still has its turn flag. -/
def scenarioRoundOver : Game :=
  { deck := [0, 1, 3, 4, 5, 6, 8, 9, 10, 11, 12, 0, 1, 3, 4, 5, 6, 7, 8, 9, 10, 11, 12,
             0, 1, 3, 4, 5, 6, 7, 8, 9, 10, 11, 12, 0, 1, 2, 3, 4, 5, 6, 7, 8, 9, 10, 11, 12, 2]
    hands := ![2, 7, 2]
    gameFinished := false
    play := false
    playerReady := ![false, false, false]
    turns := ![true, false, false] }

/-! ## Concrete schedules used as examples -/

/-- A shuffle of the new deck that deals `[0, 1, 2]` and leaves a `0` in front. -/
def shuffle0 : List Int :=
  [0, 1, 2, 0, 0, 0, 1, 1, 1, 2, 2, 2, 3, 3, 3, 3, 4, 4, 4, 4, 5, 5, 5, 5, 6, 6, 6, 6,
   7, 7, 7, 7, 8, 8, 8, 8, 9, 9, 9, 9, 10, 10, 10, 10, 11, 11, 11, 11, 12, 12, 12, 12]

/-- The three players start and reach their turn wait. -/
def startUp : List Label :=
  [.playerStart 0, .playerStart 1, .playerStart 2,
   .playerLoop 0, .playerLoop 1, .playerLoop 2]

/-- Round 0 is dealt from the unshuffled deck (hands `[0, 1, 2]`, front card
`3`); player 0 draws `3`, keeps it (coin 1) and passes the turn to player 1. -/
def openingMoves : List Label :=
  startUp ++ [.dealerResetReady, .dealerDeal createDeck, .dealerResetTurns, .dealerOpen,
    .dealerGrant, .playerGranted 0 1]

/-- The state after `openingMoves`: a live round with the token at player 1. -/
def afterOpening : Sys :=
  { g :=
      { deck := [4, 5, 6, 7, 8, 9, 10, 11, 12, 0, 1, 2, 3, 4, 5, 6, 7, 8, 9, 10, 11, 12,
                 0, 1, 2, 3, 4, 5, 6, 7, 8, 9, 10, 11, 12, 0, 1, 2, 3, 4, 5, 6, 7, 8, 9,
                 10, 11, 12, 0]
        hands := ![3, 1, 2]
        gameFinished := false
        play := true
        playerReady := ![false, false, false]
        turns := ![false, true, false] }
    round := 0
    dealerPc := .awaitClose
    pc := ![.loopTop, .turnWait, .turnWait] }

/-- The state after `startUp`: all players are ready and wait for their turn. -/
def afterStartUp : Sys :=
  { g :=
      { deck := createDeck
        hands := ![-1, -1, -1]
        gameFinished := false
        play := false
        playerReady := ![true, true, true]
        turns := ![false, false, false] }
    round := 0
    dealerPc := .awaitReady
    pc := ![.turnWait, .turnWait, .turnWait] }

/-- The players start and the dealer resets the ready flags (lines 137-142). -/
def readyReset : List Label :=
  startUp ++ [.dealerResetReady]

/-- The state after `readyReset`: the dealer is about to shuffle and deal. -/
def afterReadyReset : Sys :=
  { g :=
      { deck := createDeck
        hands := ![-1, -1, -1]
        gameFinished := false
        play := false
        playerReady := ![false, false, false]
        turns := ![false, false, false] }
    round := 0
    dealerPc := .atDeal
    pc := ![.turnWait, .turnWait, .turnWait] }

/-- Round 0 is dealt from `shuffle0`; player 0 draws the matching `0` and wins,
comes back to its turn wait and cleans up. -/
def winThenCleanup : List Label :=
  startUp ++ [.dealerResetReady, .dealerDeal shuffle0, .dealerResetTurns, .dealerOpen,
    .dealerGrant, .playerGranted 0 0, .playerLoop 0, .playerGranted 0 0]

/-- The state after `winThenCleanup`. -/
def afterWinnerCleanup : Sys :=
  { g :=
      { deck := [0, 0, 1, 1, 1, 2, 2, 2, 3, 3, 3, 3, 4, 4, 4, 4, 5, 5, 5, 5, 6, 6, 6, 6,
                 7, 7, 7, 7, 8, 8, 8, 8, 9, 9, 9, 9, 10, 10, 10, 10, 11, 11, 11, 11,
                 12, 12, 12, 12, 0, 0]
        hands := ![-1, 1, 2]
        gameFinished := false
        play := false
        playerReady := ![true, false, false]
        turns := ![true, true, false] }
    round := 0
    dealerPc := .awaitClose
    pc := ![.openWait, .turnWait, .turnWait] }

/-- Round 0 up to the deal from the unshuffled deck: hands `[0, 1, 2]`, the turn
flags not yet reset, `play` still false. -/
def upToDeal : List Label :=
  startUp ++ [.dealerResetReady, .dealerDeal createDeck]

/-- The state after `upToDeal`. -/
def afterDeal : Sys :=
  { g :=
      { deck := [3, 4, 5, 6, 7, 8, 9, 10, 11, 12, 0, 1, 2, 3, 4, 5, 6, 7, 8, 9, 10, 11, 12,
                 0, 1, 2, 3, 4, 5, 6, 7, 8, 9, 10, 11, 12, 0, 1, 2, 3, 4, 5, 6, 7, 8, 9,
                 10, 11, 12]
        hands := ![0, 1, 2]
        gameFinished := false
        play := false
        playerReady := ![false, false, false]
        turns := ![false, false, false] }
    round := 0
    dealerPc := .atTurnReset
    pc := ![.turnWait, .turnWait, .turnWait] }

/-- The state reached from `afterDeal` when the turn wait of player 2 (line 237)
returns without a signal: `play` is false, so the player cleans up: its card `2`
goes to the back of the pile, its hand is empty and it waits for the round to
open. -/
def afterWake : Sys :=
  { g :=
      { deck := [3, 4, 5, 6, 7, 8, 9, 10, 11, 12, 0, 1, 2, 3, 4, 5, 6, 7, 8, 9, 10, 11, 12,
                 0, 1, 2, 3, 4, 5, 6, 7, 8, 9, 10, 11, 12, 0, 1, 2, 3, 4, 5, 6, 7, 8, 9,
                 10, 11, 12, 2]
        hands := ![0, 1, -1]
        gameFinished := false
        play := false
        playerReady := ![false, false, true]
        turns := ![true, false, false] }
    round := 0
    dealerPc := .atTurnReset
    pc := ![.turnWait, .turnWait, .openWait] }

/-- The round goes on after the wake-up: the dealer resets the turn flags, opens
the round and grants the turn to player 0; players 0 and 1 draw `3` and `4` and
keep their cards; player 2, whose hand is empty, draws `5` and keeps it (coin
1), which puts the `-1` of its hand on the pile. -/
def afterWakeMoves : List Label :=
  [.dealerResetTurns, .dealerOpen, .dealerGrant, .playerGranted 0 0, .playerGranted 1 0,
   .playerLoop 2, .playerGranted 2 1]

/-- The state after `afterWakeMoves`: 50 entries in the pile, three occupied hands. -/
def extraCard : Sys :=
  { g :=
      { deck := [6, 7, 8, 9, 10, 11, 12, 0, 1, 2, 3, 4, 5, 6, 7, 8, 9, 10, 11, 12,
                 0, 1, 2, 3, 4, 5, 6, 7, 8, 9, 10, 11, 12, 0, 1, 2, 3, 4, 5, 6, 7, 8, 9,
                 10, 11, 12, 2, 3, 4, -1]
        hands := ![0, 1, 5]
        gameFinished := false
        play := true
        playerReady := ![false, false, true]
        turns := ![true, false, false] }
    round := 0
    dealerPc := .awaitClose
    pc := ![.loopTop, .loopTop, .loopTop] }

/-- What holds in every state the threads can reach when every wait returns
only after its signal (see `inv_run`). -/
structure Inv (s : Sys) : Prop where
  /-- No card is lost or made. -/
  cons : s.g.deck.length + occupied s.g.hands = NUM_SUITS * NUM_RANKS
  /-- The pile holds ranks only. -/
  cards : ∀ c ∈ s.g.deck, 0 ≤ c ∧ c < NUM_RANKS
  /-- A hand is empty or holds a rank. -/
  handsCard : ∀ i, s.g.hands i = -1 ∨ (0 ≤ s.g.hands i ∧ s.g.hands i < NUM_RANKS)
  /-- In a live round every hand is occupied. -/
  liveHands : s.g.play = true → s.g.gameFinished = false → ∀ i, s.g.hands i ≠ -1
  /-- In a live round no ready flag is set. -/
  liveReady : s.g.play = true → s.g.gameFinished = false → ∀ i, s.g.playerReady i = false
  /-- In a live round, once the dealer has granted the turn, exactly one turn
  flag is set. -/
  liveToken : s.g.play = true → s.g.gameFinished = false → s.dealerPc = .awaitClose →
    ∃ i, ∀ j, s.g.turns j = true ↔ j = i
  /-- After the grant and before the first round-end cleanup of the round at most
  one turn flag is set. -/
  quietToken : s.dealerPc = .awaitClose → (∀ i, s.g.playerReady i = false) →
    ∀ j k, s.g.turns j = true → s.g.turns k = true → j = k
  /-- Between the turn reset and the grant no turn flag is set. -/
  preGrant : (s.dealerPc = .atOpen ∨ s.dealerPc = .atGrant) → ∀ j, s.g.turns j = false
  /-- A ready player holds no card. -/
  readyEmpty : ∀ i, s.g.playerReady i = true → s.g.hands i = -1
  /-- A player that has not started: nothing was dealt yet. -/
  atStart : ∀ i, s.pc i = .start →
    s.g.hands i = -1 ∧ s.g.playerReady i = false ∧ s.round = 0 ∧ s.dealerPc = .awaitReady
  /-- In round 0 no turn flag is set before the turn reset. -/
  first : s.round = 0 →
    (s.dealerPc = .awaitReady ∨ s.dealerPc = .atDeal ∨ s.dealerPc = .atTurnReset) →
    ∀ i, s.g.turns i = false
  /-- Before the first ready reset no player has been past its turn wait. -/
  firstPcs : s.round = 0 → s.dealerPc = .awaitReady →
    ∀ i, s.pc i = .start ∨ s.pc i = .loopTop ∨ s.pc i = .turnWait
  /-- After the first deal a ready player is blocked at the round-open wait. -/
  readyPc : s.g.gameFinished = false → ∀ i, s.g.playerReady i = true →
    s.pc i = .openWait ∨ (s.round = 0 ∧ s.dealerPc = .awaitReady)
  /-- The flag `gameFinished` is set exactly when the dealer is past line 193. -/
  finished : s.g.gameFinished = true ↔
    (s.dealerPc = .finishGrant ∨ s.dealerPc = .finishOpen ∨ s.dealerPc = .done)
  /-- Between line 193 and the final broadcast all players are at the round-open wait. -/
  finishing : (s.dealerPc = .finishGrant ∨ s.dealerPc = .finishOpen) →
    s.g.play = false ∧ ∀ i, s.pc i = .openWait
  /-- After the final broadcast every player is at its loop test or has returned. -/
  afterOpen : s.dealerPc = .done →
    s.g.play = true ∧ ∀ i, s.pc i = .loopTop ∨ s.pc i = .exited
  /-- From a ready wait up to the opening of the round no round is live. -/
  readyWait : (s.dealerPc = .awaitReady ∨ s.dealerPc = .atDeal ∨ s.dealerPc = .atTurnReset
      ∨ s.dealerPc = .atOpen) → s.g.play = false
  /-- The round is open when the dealer is about to grant the turn. -/
  grantPlay : s.dealerPc = .atGrant → s.g.play = true
  /-- While `play` is true no player is blocked on `playCond`, so the signal of
  a winner (line 319) can only wake the dealer. -/
  noWaiter : s.g.play = true → ∀ i, s.pc i ≠ .openWait
  /-- The loop counter of the dealer. -/
  rounds : s.round ≤ NUM_ROUNDS
    ∧ ((s.dealerPc = .atDeal ∨ s.dealerPc = .atTurnReset ∨ s.dealerPc = .atOpen
          ∨ s.dealerPc = .atGrant ∨ s.dealerPc = .awaitClose) → s.round < NUM_ROUNDS)
    ∧ (s.dealerPc = .finishGrant ∨ s.dealerPc = .finishOpen ∨ s.dealerPc = .done →
        s.round = NUM_ROUNDS)
  /-- From the ready reset to the opening of the round no ready flag is set. -/
  blockReady : (s.dealerPc = .atDeal ∨ s.dealerPc = .atTurnReset ∨ s.dealerPc = .atOpen) →
    ∀ i, s.g.playerReady i = false
  /-- From the ready reset to the opening of the round the players are blocked:
  all at the round-open wait, or (round 0) at the loop test or the turn wait. -/
  blockPcs : (s.dealerPc = .atDeal ∨ s.dealerPc = .atTurnReset ∨ s.dealerPc = .atOpen) →
    (∀ i, s.pc i = .openWait)
      ∨ (s.round = 0 ∧ ∀ i, s.pc i = .loopTop ∨ s.pc i = .turnWait)
  /-- The dealer deals to empty hands. -/
  dealHands : s.dealerPc = .atDeal → ∀ i, s.g.hands i = -1
  /-- After the deal every hand is occupied. -/
  dealt : (s.dealerPc = .atTurnReset ∨ s.dealerPc = .atOpen) → ∀ i, s.g.hands i ≠ -1

/-- Field-by-field comparison of two `Game` records. -/
def sameGame (a b : Game) : Bool :=
  a.deck == b.deck
    && (List.finRange NUM_PLAYERS).all (fun i => a.hands i == b.hands i)
    && a.gameFinished == b.gameFinished
    && a.play == b.play
    && (List.finRange NUM_PLAYERS).all (fun i => a.playerReady i == b.playerReady i)
    && (List.finRange NUM_PLAYERS).all (fun i => a.turns i == b.turns i)

/-- Field-by-field comparison of two system states. -/
def sameSys (a b : Sys) : Bool :=
  sameGame a.g b.g && a.round == b.round && a.dealerPc == b.dealerPc
    && (List.finRange NUM_PLAYERS).all (fun i => a.pc i == b.pc i)

/-- The schedule `tr` runs from `s0` without fault and ends in `st`. -/
def reaches (tr : List Label) (s0 st : Sys) : Bool :=
  match run tr s0 with
  | some s => sameSys s st
  | none => false


/-- Checks that the schedule `tr`, in which a wait may also return without its
signal, leads from `s0` to `st`. -/
def reachesAny (tr : List Label) (s0 st : Sys) : Bool :=
  match runAny tr s0 with
  | some s => sameSys s st
  | none => false
/-! ## Basic facts about the blocks -/

theorem finRange_players : List.finRange NUM_PLAYERS = [0, 1, 2] := by decide

theorem createDeck_length : createDeck.length = NUM_SUITS * NUM_RANKS := by decide

theorem resetReady_eq (g : Game) :
    resetReady g = { g with playerReady := fun _ => false } := by
  simp only [resetReady, finRange_players, List.foldl]
  congr 1
  funext j
  fin_cases j <;> simp [setAt]

theorem resetTurns_eq (g : Game) : resetTurns g = { g with turns := fun _ => false } := by
  simp only [resetTurns, finRange_players, List.foldl]
  congr 1
  funext j
  fin_cases j <;> simp [setAt]

theorem grantAll_eq (g : Game) : grantAll g = { g with turns := fun _ => true } := by
  simp only [grantAll, grant, finRange_players, List.foldl]
  congr 1
  funext j
  fin_cases j <;> simp [setAt]

theorem nextPlayerIndex_ne (i : Seat) : nextPlayerIndex i ≠ i := by
  fin_cases i <;> decide

theorem forall_seat {P : Seat → Prop} : (∀ i, P i) ↔ P 0 ∧ P 1 ∧ P 2 := by
  constructor
  · intro h; exact ⟨h 0, h 1, h 2⟩
  · rintro ⟨h0, h1, h2⟩ i
    fin_cases i <;> assumption

theorem seat_cases (i : Seat) : i = 0 ∨ i = 1 ∨ i = 2 := by
  revert i; decide

theorem allReady_iff (g : Game) : allReady g = true ↔ ∀ i, g.playerReady i = true := by
  simp [allReady]

/-- The deal on a pile of at least three cards, written out. -/
theorem deal_cons (g : Game) (a b c : Int) (rest : List Int) (h : g.deck = a :: b :: c :: rest) :
    deal g = some { g with deck := rest,
                           hands := setAt (setAt (setAt g.hands 0 a) 1 b) 2 c } := by
  simp [deal, finRange_players, List.foldlM, dealOne, h]
  rfl

/-- The deal faults exactly on piles of fewer than `NUM_PLAYERS` cards. -/
theorem deal_isSome (g : Game) : (deal g).isSome = true ↔ NUM_PLAYERS ≤ g.deck.length := by
  rcases hd : g.deck with _ | ⟨a, _ | ⟨b, _ | ⟨c, rest⟩⟩⟩
  · simp [deal, finRange_players, List.foldlM, dealOne, hd]
  · simp [deal, finRange_players, List.foldlM, dealOne, hd]
  · simp [deal, finRange_players, List.foldlM, dealOne, hd]
  · rw [deal_cons g a b c rest hd]
    simp only [Option.isSome_some, List.length_cons, true_iff]
    show 3 ≤ _
    omega


/-! ## The blocks of the dealer and of a player -/

/-- C3 (win detection): for every player `i` and every state with `play` true,
`gameFinished` false and a pile whose front card `c` equals `hands[i]`, the
granted player takes a live turn whose result is the old state with the pile
`rest ++ [c]` (front removed, `c` appended at the back) and `play` false; the
hands and every turn flag are unchanged, and the player returns to its loop test. -/
theorem win_detection (i : Seat) (coin : Int) (g : Game) (c : Int) (rest : List Int)
    (hplay : g.play = true) (hfin : g.gameFinished = false)
    (hdeck : g.deck = c :: rest) (hhand : g.hands i = c) :
    playerGranted i coin g
      = some ({ g with deck := rest ++ [c], play := false }, PlayerPc.loopTop)
    ∧ playerTurn i coin g = some { g with deck := rest ++ [c], play := false } := by
  -- the draw takes `c` from the front, the comparison of line 306 succeeds
  have hturn : playerTurn i coin g = some { g with deck := rest ++ [c], play := false } := by
    simp only [playerTurn, hdeck]
    rw [if_pos hhand.symm]
  -- `play` is true and `gameFinished` is false: the granted player takes a live turn
  have hlive : playerGranted i coin g
      = (playerTurn i coin g).map (fun g1 => (g1, PlayerPc.loopTop)) := by
    simp [playerGranted, hplay, hfin]
  refine ⟨?_, hturn⟩
  rw [hlive, hturn]
  rfl

/-- Witness of C3: hands `[2, 7, 2]`, player 0, front card `2`. -/
theorem win_detection_witness :
    playerGranted 0 1 scenarioWin = some (scenarioRoundOver, PlayerPc.loopTop) := by
  have h := (win_detection 0 1 scenarioWin 2 scenarioWin.deck.tail
    (by decide) (by decide) (by decide) (by decide)).1
  rw [h]
  decide

/-- C4 (no-match turn): for every player `i` and every state with `play` true
whose front card `c` differs from the held card `h = hands[i]`, the live turn
removes `c` from the front; on coin value 0 it appends `c` and leaves all hands
as they were, on any other coin value (the generator gives 1) it appends `h` and
sets `hands[i] = c`, other hands unchanged; `play` stays true, `turns[i]` becomes
false, `turns[(i+1) mod NUM_PLAYERS]` becomes true, no other flag changes, and a
sole token holder `i` before gives the sole token holder `(i+1) mod NUM_PLAYERS` after; the
player then is back at its loop test. -/
theorem no_match_turn (i : Seat) (coin : Int) (g : Game) (c : Int) (rest : List Int)
    (hplay : g.play = true) (hdeck : g.deck = c :: rest) (hne : c ≠ g.hands i) :
    ∃ g1, playerTurn i coin g = some g1
      ∧ (coin = 0 → g1.deck = rest ++ [c] ∧ g1.hands = g.hands)
      ∧ (coin ≠ 0 → g1.deck = rest ++ [g.hands i] ∧ g1.hands i = c
            ∧ ∀ j, j ≠ i → g1.hands j = g.hands j)
      ∧ g1.play = true
      ∧ g1.gameFinished = g.gameFinished
      ∧ g1.playerReady = g.playerReady
      ∧ g1.turns i = false
      ∧ g1.turns (nextPlayerIndex i) = true
      ∧ (nextPlayerIndex i).val = (i.val + 1) % NUM_PLAYERS
      ∧ (∀ j, j ≠ i → j ≠ nextPlayerIndex i → g1.turns j = g.turns j)
      ∧ ((∀ j, g.turns j = true ↔ j = i) → ∀ j, g1.turns j = true ↔ j = nextPlayerIndex i)
      ∧ (g.gameFinished = false → playerGranted i coin g = some (g1, PlayerPc.loopTop)) := by
  have hn := nextPlayerIndex_ne i
  refine ⟨_, by simp only [playerTurn, hdeck, hne, if_false]; rfl,
    ?_, ?_, ?_, ?_, ?_, ?_, ?_, ?_, ?_, ?_, ?_⟩
  · intro h0; simp [h0, passTurn]
  · intro h0
    refine ⟨by simp [h0, passTurn], by simp [h0, passTurn, setAt], ?_⟩
    intro j hj
    simp [h0, passTurn, setAt, hj]
  · split <;> simp [passTurn, hplay]
  · split <;> simp [passTurn]
  · split <;> simp [passTurn]
  · split <;> simp [passTurn, setAt, hn.symm]
  · split <;> simp [passTurn, setAt]
  · rfl
  · intro j hj hj2
    split <;> simp [passTurn, setAt, hj, hj2]
  · intro hsole j
    have hj := hsole j
    by_cases h1 : j = nextPlayerIndex i
    · split <;> simp [passTurn, setAt, h1]
    · by_cases h2 : j = i
      · split <;> simp [passTurn, setAt, h1, h2, hn.symm]
      · have hf : g.turns j = false := by
          cases ht : g.turns j
          · rfl
          · exact absurd (hj.1 ht) h2
        split <;> simp [passTurn, setAt, h1, h2, hf]
  · intro hfin
    simp [playerGranted, hplay, hfin, playerTurn, hdeck, hne]

/-- Witness of C4: hands `[2, 7, 2]`, player 0 draws `5` and the coin is 1: the
held `2` goes to the back, the hand becomes `5` and the token moves to player 1. -/
theorem no_match_turn_witness :
    ∃ g1, playerTurn 0 1 scenarioNoMatch = some g1
      ∧ g1.deck = scenarioNoMatch.deck.tail ++ [2] ∧ g1.hands 0 = 5
      ∧ g1.turns 0 = false ∧ g1.turns 1 = true := by
  obtain ⟨g1, h, _, h1, _, _, _, h2, h3, _, _, _, _⟩ :=
    no_match_turn 0 1 scenarioNoMatch 5 scenarioNoMatch.deck.tail
      (by decide) (by decide) (by decide)
  exact ⟨g1, h, (h1 (by decide)).1, (h1 (by decide)).2.1, h2, h3⟩

/-- C5 (starting-player rotation): for every round index `r` and whatever the
turn flags were before, after the dealer's reset-and-grant for round `r` the
flag `turns[j]` is true exactly for `j = r mod NUM_PLAYERS`; over the
`NUM_ROUNDS` rounds the starting players are 0, 1, 2 in that order. -/
theorem starting_player_rotation (r : Nat) (g : Game) :
    (∀ j : Seat, (resetAndGrant r g).turns j = true ↔ j.val = r % NUM_PLAYERS)
    ∧ (List.range NUM_ROUNDS).map (fun k => (startingPlayer k).val) = [0, 1, 2] := by
  refine ⟨?_, by decide⟩
  intro j
  simp only [resetAndGrant, grant, openRound, resetTurns_eq, setAt, startingPlayer]
  by_cases h : j = ⟨r % NUM_PLAYERS, Nat.mod_lt _ (by decide)⟩
  · simp [h]
  · simp only [h, if_false]
    constructor
    · intro h1; cases h1
    · intro h1; exact absurd (Fin.ext h1) h

/-- C6 (round-end cleanup): for every player `i`, when it is granted a turn
while `play` is false it goes to the round-open wait without a draw (the old
pile is a prefix of the new one); a held card `c` is appended to the back of
the pile and the hand becomes `-1`, an empty hand leaves pile and hand as they
were; `playerReady[i]` is true afterwards whatever it was; no other hand changes. -/
theorem round_end_cleanup (i : Seat) (coin : Int) (g : Game) (hplay : g.play = false) :
    ∃ g1, playerGranted i coin g = some (g1, PlayerPc.openWait)
      ∧ g.deck <+: g1.deck
      ∧ (g.hands i ≠ -1 → g1.deck = g.deck ++ [g.hands i] ∧ g1.hands i = -1)
      ∧ (g.hands i = -1 → g1.deck = g.deck ∧ g1.hands i = -1)
      ∧ g1.playerReady i = true
      ∧ (∀ j, j ≠ i → g1.hands j = g.hands j) := by
  refine ⟨playerCleanup i g, by simp [playerGranted, hplay], ?_, ?_, ?_, ?_, ?_⟩
  · by_cases h : g.hands i = -1 <;> simp [playerCleanup, signalReady, grant, h]
  · intro h; simp [playerCleanup, signalReady, grant, h, setAt]
  · intro h; simp [playerCleanup, signalReady, grant, h]
  · simp [playerCleanup, signalReady, setAt]
  · intro j hj
    by_cases h : g.hands i = -1 <;> simp [playerCleanup, signalReady, grant, h, setAt, hj]

/-- Witness of C6: after the win of player 0 with hands `[2, 7, 2]`, its cleanup
appends the held `2` and empties the hand. -/
theorem round_end_cleanup_witness :
    ∃ g1, playerGranted 0 0 scenarioRoundOver = some (g1, PlayerPc.openWait)
      ∧ g1.deck = scenarioRoundOver.deck ++ [2] ∧ g1.hands 0 = -1
      ∧ g1.playerReady 0 = true := by
  obtain ⟨g1, h, _, h1, _, h2, _⟩ := round_end_cleanup 0 0 scenarioRoundOver (by decide)
  exact ⟨g1, h, (h1 (by decide)).1, (h1 (by decide)).2, h2⟩

/-- C9 (deal): for every pile of cards (ranks in `[0, NUM_RANKS)`) with at least
`NUM_PLAYERS` cards, the deal succeeds, sets `hands[i]` to the `i`-th card of the
pile for each seat `i`, and leaves the pile with its first `NUM_PLAYERS` cards
removed, the rest in unchanged order; every hand is occupied afterwards, exactly
`NUM_PLAYERS` cards left the pile (one per hand), and no flag changes. -/
theorem deal_one_card_each (g : Game) (hlen : NUM_PLAYERS ≤ g.deck.length)
    (hcards : ∀ c ∈ g.deck, 0 ≤ c ∧ c < NUM_RANKS) :
    ∃ g1, deal g = some g1
      ∧ (∀ i : Seat, g.deck[i.val]? = some (g1.hands i))
      ∧ g1.deck = g.deck.drop NUM_PLAYERS
      ∧ (∀ i : Seat, g1.hands i ≠ -1)
      ∧ occupied g1.hands = NUM_PLAYERS
      ∧ g1.deck.length + NUM_PLAYERS = g.deck.length
      ∧ g1.gameFinished = g.gameFinished ∧ g1.play = g.play
      ∧ g1.playerReady = g.playerReady ∧ g1.turns = g.turns := by
  rcases hd : g.deck with _ | ⟨a, _ | ⟨b, _ | ⟨c, rest⟩⟩⟩
  · rw [hd] at hlen; simp [NUM_PLAYERS] at hlen
  · rw [hd] at hlen; simp [NUM_PLAYERS] at hlen
  · rw [hd] at hlen; simp [NUM_PLAYERS] at hlen
  · have ha : a ≠ -1 := by
      have := (hcards a (by simp [hd])).1; omega
    have hb : b ≠ -1 := by
      have := (hcards b (by simp [hd])).1; omega
    have hc : c ≠ -1 := by
      have := (hcards c (by simp [hd])).1; omega
    have hall : ∀ i : Seat, setAt (setAt (setAt g.hands 0 a) 1 b) 2 c i ≠ -1 := by
      rw [forall_seat]; simp [setAt, ha, hb, hc]
    refine ⟨_, deal_cons g a b c rest hd, ?_, by simp, hall, ?_, by simp [NUM_PLAYERS],
      rfl, rfl, rfl, rfl⟩
    · rw [forall_seat]; simp [setAt]
    · simp [occupied, finRange_players, List.countP_cons, hall]

/-- Witness of C9: the deal from the unshuffled deck `0, 1, 2, 3, ...` gives the
hands `[0, 1, 2]` and leaves 49 cards, the first of them `3`. -/
theorem deal_one_card_each_witness :
    ∃ g1, deal Game.initial = some g1
      ∧ g1.hands 0 = 0 ∧ g1.hands 1 = 1 ∧ g1.hands 2 = 2
      ∧ g1.deck = createDeck.drop 3 ∧ g1.deck.length = 49 := by
  obtain ⟨g1, h, h1, h2, _, _, h3, _⟩ :=
    deal_one_card_each Game.initial (by decide) (by decide)
  refine ⟨g1, h, ?_, ?_, ?_, h2, ?_⟩
  · have := h1 0; simpa [Game.initial] using (Option.some.inj this).symm
  · have := h1 1; simpa [Game.initial] using (Option.some.inj this).symm
  · have := h1 2; simpa [Game.initial] using (Option.some.inj this).symm
  · have hl : Game.initial.deck.length = 52 := by decide
    simp only [NUM_PLAYERS] at h3
    omega
/-! ## Preservation of the invariant -/

theorem step_eq {l : Label} {s s1 : Sys} (h : step l s = some s1) :
    enabled l s = true ∧ exec l s = some s1 := by
  unfold step at h
  split at h
  · exact ⟨by assumption, h⟩
  · cases h

theorem occupied_eq (h : Seat → Int) :
    occupied h = (if h 0 = -1 then 0 else 1) + (if h 1 = -1 then 0 else 1)
      + (if h 2 = -1 then 0 else 1) := by
  simp only [occupied, finRange_players, List.countP_cons, List.countP_nil]
  by_cases h0 : h 0 = -1 <;> by_cases h1 : h 1 = -1 <;> by_cases h2 : h 2 = -1 <;>
    simp [h0, h1, h2]

theorem occupied_setAt (h : Seat → Int) (i : Seat) (v : Int) :
    occupied (setAt h i v) + (if h i = -1 then 0 else 1)
      = occupied h + (if v = -1 then 0 else 1) := by
  rw [occupied_eq, occupied_eq]
  rcases seat_cases i with rfl | rfl | rfl <;> simp [setAt] <;> omega

theorem occupied_empty (h : Seat → Int) (he : ∀ i, h i = -1) : occupied h = 0 := by
  rw [occupied_eq]; simp [he]

theorem occupied_full (h : Seat → Int) (he : ∀ i, h i ≠ -1) : occupied h = NUM_PLAYERS := by
  rw [occupied_eq]; simp [he]

theorem inv_initial : Inv Sys.initial :=
  { cons := by decide
    cards := by decide
    handsCard := fun _ => Or.inl rfl
    liveHands := by intro h; cases h
    liveReady := by intro h; cases h
    liveToken := by intro h; cases h
    quietToken := by intro h; cases h
    preGrant := by intro h; rcases h with h | h <;> cases h
    readyEmpty := by intro i h; cases h
    atStart := fun _ _ => ⟨rfl, rfl, rfl, rfl⟩
    first := fun _ _ _ => rfl
    firstPcs := fun _ _ _ => Or.inl rfl
    readyPc := by intro _ i h; cases h
    finished := by simp [Sys.initial, Game.initial]
    finishing := by simp [Sys.initial]
    afterOpen := by simp [Sys.initial]
    readyWait := fun _ => rfl
    grantPlay := by intro h; cases h
    noWaiter := by intro h; cases h
    rounds := by simp [Sys.initial]
    blockReady := fun _ _ => rfl
    blockPcs := by simp [Sys.initial]
    dealHands := fun _ _ => rfl
    dealt := by simp [Sys.initial] }

theorem not_finished_of_awaitReady {s : Sys} (hinv : Inv s) (hd : s.dealerPc = .awaitReady) :
    s.g.gameFinished = false := by
  cases hf : s.g.gameFinished
  · rfl
  · have := hinv.finished.1 hf
    simp [hd] at this

/-- The game is not finished while the dealer is in its round loop. -/
theorem not_finished_of_loop {s : Sys} (hinv : Inv s)
    (hd : s.dealerPc ≠ .finishGrant ∧ s.dealerPc ≠ .finishOpen ∧ s.dealerPc ≠ .done) :
    s.g.gameFinished = false := by
  cases hf : s.g.gameFinished
  · rfl
  · rcases hinv.finished.1 hf with h | h | h
    · exact absurd h hd.1
    · exact absurd h hd.2.1
    · exact absurd h hd.2.2

theorem inv_playerStart (s : Sys) (i : Seat) (hinv : Inv s) (hpc : s.pc i = .start) :
    Inv { s with g := signalReady i s.g, pc := setAt s.pc i .loopTop } := by
  obtain ⟨hh, hr, hround, hd⟩ := hinv.atStart i hpc
  have hplay := hinv.readyWait (Or.inl hd)
  exact
    { cons := hinv.cons
      cards := hinv.cards
      handsCard := hinv.handsCard
      liveHands := by
        intro hp; simp [signalReady, hplay] at hp
      liveReady := by
        intro hp; simp [signalReady, hplay] at hp
      liveToken := by
        intro hp; simp [signalReady, hplay] at hp
      quietToken := by
        intro h; simp [hd] at h
      preGrant := by
        intro h; simp [hd] at h
      readyEmpty := by
        intro j hj
        by_cases hji : j = i
        · subst hji; exact hh
        · simp [signalReady, setAt, hji] at hj
          exact hinv.readyEmpty j hj
      atStart := by
        intro j hj
        by_cases hji : j = i
        · simp [setAt, hji] at hj
        · simp [setAt, hji] at hj
          simpa [signalReady, setAt, hji] using hinv.atStart j hj
      first := hinv.first
      firstPcs := by
        intro h0 h1 j
        by_cases hji : j = i
        · right; left; simp [setAt, hji]
        · simpa [setAt, hji] using hinv.firstPcs h0 h1 j
      readyPc := by
        intro _ j _
        exact Or.inr ⟨hround, hd⟩
      finished := hinv.finished
      finishing := by
        intro h; simp [hd] at h
      afterOpen := by
        intro h; simp [hd] at h
      readyWait := hinv.readyWait
      grantPlay := by
        intro h; simp [hd] at h
      noWaiter := by
        intro hp; simp [signalReady, hplay] at hp
      rounds := hinv.rounds
      blockReady := by
        intro h; simp [hd] at h
      blockPcs := by
        intro h; simp [hd] at h
      dealHands := by
        intro h; simp [hd] at h
      dealt := by
        intro h; simp [hd] at h }

theorem inv_playerLoop (s : Sys) (i : Seat) (hinv : Inv s) (hpc : s.pc i = .loopTop) :
    Inv { s with g := (playerLoop i s.g).1, pc := setAt s.pc i (playerLoop i s.g).2 } := by
  cases hf : s.g.gameFinished
  · -- the game goes on: the player moves to the turn wait
    have hl : playerLoop i s.g = (s.g, PlayerPc.turnWait) := by simp [playerLoop, hf]
    rw [hl]
    exact
      { cons := hinv.cons
        cards := hinv.cards
        handsCard := hinv.handsCard
        liveHands := hinv.liveHands
        liveReady := hinv.liveReady
        liveToken := hinv.liveToken
        quietToken := hinv.quietToken
        preGrant := hinv.preGrant
        readyEmpty := hinv.readyEmpty
        atStart := by
          intro j hj
          by_cases hji : j = i
          · simp [setAt, hji] at hj
          · simp [setAt, hji] at hj
            exact hinv.atStart j hj
        first := hinv.first
        firstPcs := by
          intro h0 h1 j
          by_cases hji : j = i
          · right; right; simp [setAt, hji]
          · simpa [setAt, hji] using hinv.firstPcs h0 h1 j
        readyPc := by
          intro h j hj
          rcases hinv.readyPc h j hj with h1 | h1
          · by_cases hji : j = i
            · subst hji; rw [hpc] at h1; cases h1
            · left; simpa [setAt, hji] using h1
          · exact Or.inr h1
        finished := hinv.finished
        finishing := by
          intro h
          have := (hinv.finishing h).2 i
          rw [hpc] at this; cases this
        afterOpen := by
          intro h
          have := hinv.finished.2 (Or.inr (Or.inr h))
          rw [hf] at this; cases this
        readyWait := hinv.readyWait
        grantPlay := hinv.grantPlay
        noWaiter := by
          intro hp j
          by_cases hji : j = i
          · simp [setAt, hji]
          · simpa [setAt, hji] using hinv.noWaiter hp j
        rounds := hinv.rounds
        blockReady := hinv.blockReady
        blockPcs := by
          intro h
          rcases hinv.blockPcs h with h1 | ⟨h0, h1⟩
          · have := h1 i
            rw [hpc] at this; cases this
          · refine Or.inr ⟨h0, ?_⟩
            intro j
            by_cases hji : j = i
            · right; simp [setAt, hji]
            · simpa [setAt, hji] using h1 j
        dealHands := hinv.dealHands
        dealt := hinv.dealt }
  · -- the game is over: exit hand-off
    have hl : playerLoop i s.g = (playerExit i s.g, PlayerPc.exited) := by simp [playerLoop, hf]
    rw [hl]
    have hdone : s.dealerPc = .done := by
      rcases hinv.finished.1 hf with h | h | h
      · have := (hinv.finishing (Or.inl h)).2 i
        rw [hpc] at this; cases this
      · have := (hinv.finishing (Or.inr h)).2 i
        rw [hpc] at this; cases this
      · exact h
    exact
      { cons := hinv.cons
        cards := hinv.cards
        handsCard := hinv.handsCard
        liveHands := by
          intro _ h; simp [playerExit, passTurn, hf] at h
        liveReady := by
          intro _ h; simp [playerExit, passTurn, hf] at h
        liveToken := by
          intro _ h; simp [playerExit, passTurn, hf] at h
        quietToken := by
          intro h; simp [hdone] at h
        preGrant := by
          intro h; simp [hdone] at h
        readyEmpty := hinv.readyEmpty
        atStart := by
          intro j hj
          by_cases hji : j = i
          · simp [setAt, hji] at hj
          · simp [setAt, hji] at hj
            exact hinv.atStart j hj
        first := by
          intro _ h; simp [hdone] at h
        firstPcs := by
          intro _ h; simp [hdone] at h
        readyPc := by
          intro h; simp [playerExit, passTurn, hf] at h
        finished := hinv.finished
        finishing := by
          intro h; simp [hdone] at h
        afterOpen := by
          intro h
          refine ⟨(hinv.afterOpen h).1, ?_⟩
          intro j
          by_cases hji : j = i
          · simp [setAt, hji]
          · simpa [setAt, hji] using (hinv.afterOpen h).2 j
        readyWait := by
          intro h; simp [hdone] at h
        grantPlay := by
          intro h; simp [hdone] at h
        noWaiter := by
          intro hp j
          by_cases hji : j = i
          · simp [setAt, hji]
          · simpa [setAt, hji] using hinv.noWaiter hp j
        rounds := hinv.rounds
        blockReady := by
          intro h; simp [hdone] at h
        blockPcs := by
          intro h; simp [hdone] at h
        dealHands := by
          intro h; simp [hdone] at h
        dealt := by
          intro h; simp [hdone] at h }

theorem playerCleanup_eq (i : Seat) (g : Game) :
    playerCleanup i g =
      { g with deck := if g.hands i = -1 then g.deck else g.deck ++ [g.hands i]
               hands := setAt g.hands i (-1)
               playerReady := setAt g.playerReady i true
               turns := setAt g.turns (nextPlayerIndex i) true } := by
  by_cases h : g.hands i = -1
  · have hs : setAt g.hands i (-1) = g.hands := by
      funext j
      by_cases hji : j = i
      · simp [setAt, hji, h]
      · simp [setAt, hji]
    simp [playerCleanup, signalReady, grant, h, hs]
  · simp [playerCleanup, signalReady, grant, h]

/-- A player at the turn wait excludes a finished game. -/
theorem not_finished_of_turnWait {s : Sys} {i : Seat} (hinv : Inv s)
    (hpc : s.pc i = .turnWait) : s.g.gameFinished = false := by
  cases hf : s.g.gameFinished
  · rfl
  · rcases hinv.finished.1 hf with h | h | h
    · have := (hinv.finishing (Or.inl h)).2 i
      rw [hpc] at this; cases this
    · have := (hinv.finishing (Or.inr h)).2 i
      rw [hpc] at this; cases this
    · have := (hinv.afterOpen h).2 i
      rw [hpc] at this; simp at this

/-- A player whose turn flag is set at the turn wait finds the dealer at one of
its two waits inside the round loop. -/
theorem dealer_of_granted {s : Sys} {i : Seat} (hinv : Inv s) (hpc : s.pc i = .turnWait)
    (hturn : s.g.turns i = true) :
    s.dealerPc = .awaitReady ∨ s.dealerPc = .awaitClose := by
  have hf := not_finished_of_turnWait hinv hpc
  have hblock : (s.dealerPc = .atDeal ∨ s.dealerPc = .atTurnReset ∨ s.dealerPc = .atOpen) →
      (s.dealerPc = .atDeal ∨ s.dealerPc = .atTurnReset) → False := by
    intro h1 h2
    rcases hinv.blockPcs h1 with h | ⟨h0, _⟩
    · have := h i
      rw [hpc] at this; cases this
    · have := hinv.first h0 (Or.inr h2) i
      rw [hturn] at this; cases this
  cases hB : s.dealerPc with
  | awaitReady => exact Or.inl rfl
  | atDeal => exact (hblock (Or.inl hB) (Or.inl hB)).elim
  | atTurnReset => exact (hblock (Or.inr (Or.inl hB)) (Or.inr hB)).elim
  | atOpen =>
    have := hinv.preGrant (Or.inl hB) i
    rw [hturn] at this; cases this
  | atGrant =>
    have := hinv.preGrant (Or.inr hB) i
    rw [hturn] at this; cases this
  | awaitClose => exact Or.inr rfl
  | finishGrant =>
    have := hinv.finished.2 (Or.inl hB)
    rw [hf] at this; cases this
  | finishOpen =>
    have := hinv.finished.2 (Or.inr (Or.inl hB))
    rw [hf] at this; cases this
  | done =>
    have := hinv.finished.2 (Or.inr (Or.inr hB))
    rw [hf] at this; cases this

/-- In a live round a set turn flag means the dealer has granted the turn and
waits for the round to close. -/
theorem dealer_of_turn {s : Sys} {i : Seat} (hinv : Inv s) (hplay : s.g.play = true)
    (hf : s.g.gameFinished = false) (hturn : s.g.turns i = true) :
    s.dealerPc = .awaitClose := by
  have hw : (s.dealerPc = .awaitReady ∨ s.dealerPc = .atDeal ∨ s.dealerPc = .atTurnReset
      ∨ s.dealerPc = .atOpen) → False := by
    intro h
    have := hinv.readyWait h
    rw [hplay] at this; cases this
  cases hB : s.dealerPc with
  | awaitReady => exact (hw (Or.inl hB)).elim
  | atDeal => exact (hw (Or.inr (Or.inl hB))).elim
  | atTurnReset => exact (hw (Or.inr (Or.inr (Or.inl hB)))).elim
  | atOpen => exact (hw (Or.inr (Or.inr (Or.inr hB)))).elim
  | atGrant =>
    have := hinv.preGrant (Or.inr hB) i
    rw [hturn] at this; cases this
  | awaitClose => rfl
  | finishGrant =>
    have := hinv.finished.2 (Or.inl hB)
    rw [hf] at this; cases this
  | finishOpen =>
    have := hinv.finished.2 (Or.inr (Or.inl hB))
    rw [hf] at this; cases this
  | done =>
    have := hinv.finished.2 (Or.inr (Or.inr hB))
    rw [hf] at this; cases this

theorem inv_cleanup (s : Sys) (i : Seat) (hinv : Inv s) (hpc : s.pc i = .turnWait)
    (hturn : s.g.turns i = true) (hplay : s.g.play = false) :
    Inv { s with g := playerCleanup i s.g, pc := setAt s.pc i .openWait } := by
  have hf := not_finished_of_turnWait hinv hpc
  have hB := dealer_of_granted hinv hpc hturn
  have hnf : ¬ (s.round = 0 ∧ s.dealerPc = .awaitReady) := by
    rintro ⟨h1, h2⟩
    have := hinv.first h1 (Or.inl h2) i
    rw [hturn] at this; cases this
  rw [playerCleanup_eq]
  exact
    { cons := by
        have h1 := occupied_setAt s.g.hands i (-1)
        have h2 := hinv.cons
        by_cases hh : s.g.hands i = -1
        · simp [hh] at h1 ⊢; omega
        · simp [hh] at h1 ⊢; omega
      cards := by
        intro c hc
        by_cases hh : s.g.hands i = -1
        · simp [hh] at hc; exact hinv.cards c hc
        · simp [hh] at hc
          rcases hc with hc | hc
          · exact hinv.cards c hc
          · rcases hinv.handsCard i with h | h
            · exact absurd h hh
            · rw [hc]; exact h
      handsCard := by
        intro j
        by_cases hji : j = i
        · left; simp [setAt, hji]
        · simpa [setAt, hji] using hinv.handsCard j
      liveHands := by
        intro hp; simp [hplay] at hp
      liveReady := by
        intro hp; simp [hplay] at hp
      liveToken := by
        intro hp; simp [hplay] at hp
      quietToken := by
        intro _ hr
        have := hr i
        simp [setAt] at this
      preGrant := by
        intro h; rcases hB with hd | hd <;> simp [hd] at h
      readyEmpty := by
        intro j hj
        by_cases hji : j = i
        · simp [setAt, hji]
        · simp [setAt, hji] at hj ⊢
          exact hinv.readyEmpty j hj
      atStart := by
        intro j hj
        by_cases hji : j = i
        · simp [setAt, hji] at hj
        · simp [setAt, hji] at hj
          have := hinv.atStart j hj
          exact absurd ⟨this.2.2.1, this.2.2.2⟩ hnf
      first := by
        intro h0 h
        rcases hB with hd | hd
        · exact absurd ⟨h0, hd⟩ hnf
        · simp [hd] at h
      firstPcs := by
        intro h1 h2
        exact absurd ⟨h1, h2⟩ hnf
      readyPc := by
        intro h j hj
        by_cases hji : j = i
        · left; simp [setAt, hji]
        · simp [setAt, hji] at hj ⊢
          rcases hinv.readyPc hf j hj with h1 | h1
          · exact Or.inl h1
          · exact absurd h1 hnf
      finished := hinv.finished
      finishing := by
        intro h
        have := (hinv.finishing h).2 i
        rw [hpc] at this; cases this
      afterOpen := by
        intro h
        have := (hinv.afterOpen h).2 i
        rw [hpc] at this; simp at this
      readyWait := by
        intro _; exact hplay
      grantPlay := by
        intro h; rcases hB with hd | hd <;> simp [hd] at h
      noWaiter := by
        intro hp; simp [hplay] at hp
      rounds := hinv.rounds
      blockReady := by
        intro h; rcases hB with hd | hd <;> simp [hd] at h
      blockPcs := by
        intro h; rcases hB with hd | hd <;> simp [hd] at h
      dealHands := by
        intro h; rcases hB with hd | hd <;> simp [hd] at h
      dealt := by
        intro h; rcases hB with hd | hd <;> simp [hd] at h }

/-- The hand-off of a sole token holder leaves its successor as sole holder. -/
theorem passTurn_sole (i : Seat) (t : Seat → Bool) (hsole : ∀ j, t j = true ↔ j = i) :
    ∀ j, setAt (setAt t i false) (nextPlayerIndex i) true j = true ↔ j = nextPlayerIndex i := by
  intro j
  have hn := nextPlayerIndex_ne i
  by_cases h1 : j = nextPlayerIndex i
  · simp [setAt, h1]
  · by_cases h2 : j = i
    · simp [setAt, h1, h2, hn.symm]
    · have hf : t j = false := by
        cases ht : t j
        · rfl
        · exact absurd ((hsole j).1 ht) h2
      simp [setAt, h1, h2, hf]

/-- In a live round the player whose flag is set is the sole token holder. -/
theorem sole_of_live {s : Sys} {i : Seat} (hinv : Inv s) (hplay : s.g.play = true)
    (hf : s.g.gameFinished = false) (hturn : s.g.turns i = true) :
    ∀ j, s.g.turns j = true ↔ j = i := by
  obtain ⟨k, hk⟩ := hinv.liveToken hplay hf (dealer_of_turn hinv hplay hf hturn)
  have : i = k := (hk i).1 hturn
  subst this
  exact hk

theorem inv_win (s : Sys) (i : Seat) (card : Int) (rest : List Int) (hinv : Inv s)
    (hplay : s.g.play = true) (hf : s.g.gameFinished = false)
    (hd : s.dealerPc = .awaitClose) (hdeck : s.g.deck = card :: rest) :
    Inv { s with g := { s.g with deck := rest ++ [card], play := false },
                 pc := setAt s.pc i .loopTop } := by
  exact
    { cons := by
        have := hinv.cons
        rw [hdeck] at this
        simpa using this
      cards := by
        intro c hc
        apply hinv.cards c
        rw [hdeck]
        simp at hc ⊢
        tauto
      handsCard := hinv.handsCard
      liveHands := by
        intro hp; simp at hp
      liveReady := by
        intro hp; simp at hp
      liveToken := by
        intro hp; simp at hp
      quietToken := hinv.quietToken
      preGrant := by
        intro h; simp [hd] at h
      readyEmpty := hinv.readyEmpty
      atStart := by
        intro j hj
        by_cases hji : j = i
        · simp [setAt, hji] at hj
        · simp [setAt, hji] at hj
          exact hinv.atStart j hj
      first := by
        intro _ h; simp [hd] at h
      firstPcs := by
        intro _ h; simp [hd] at h
      readyPc := by
        intro _ j hj
        have := hinv.liveReady hplay hf j
        simp at hj
        rw [hj] at this; cases this
      finished := hinv.finished
      finishing := by
        intro h; simp [hd] at h
      afterOpen := by
        intro h; simp [hd] at h
      readyWait := by
        intro _; rfl
      grantPlay := by
        intro h; simp [hd] at h
      noWaiter := by
        intro hp; simp at hp
      rounds := hinv.rounds
      blockReady := by
        intro h; simp [hd] at h
      blockPcs := by
        intro h; simp [hd] at h
      dealHands := by
        intro h; simp [hd] at h
      dealt := by
        intro h; simp [hd] at h }

theorem inv_noMatch (s : Sys) (i : Seat) (card back : Int) (rest : List Int)
    (hands : Seat → Int) (hinv : Inv s)
    (hplay : s.g.play = true) (hf : s.g.gameFinished = false)
    (hturn : s.g.turns i = true) (hdeck : s.g.deck = card :: rest)
    (hcase : (back = card ∧ hands = s.g.hands)
      ∨ (back = s.g.hands i ∧ hands = setAt s.g.hands i card)) :
    Inv { s with g := passTurn i { s.g with deck := rest ++ [back], hands := hands },
                 pc := setAt s.pc i .loopTop } := by
  have hd := dealer_of_turn hinv hplay hf hturn
  have hcard : 0 ≤ card ∧ card < NUM_RANKS := hinv.cards card (by simp [hdeck])
  have hcard1 : card ≠ -1 := by omega
  have hhi : s.g.hands i ≠ -1 := hinv.liveHands hplay hf i
  have hback : 0 ≤ back ∧ back < NUM_RANKS := by
    rcases hcase with ⟨h, _⟩ | ⟨h, _⟩
    · rw [h]; exact hcard
    · rcases hinv.handsCard i with h1 | h1
      · exact absurd h1 hhi
      · rw [h]; exact h1
  have hocc : occupied hands = occupied s.g.hands := by
    rcases hcase with ⟨_, h⟩ | ⟨_, h⟩
    · rw [h]
    · have := occupied_setAt s.g.hands i card
      rw [h]
      simp [hhi, hcard1] at this
      exact this
  have hhands : ∀ j, hands j ≠ -1 := by
    intro j
    rcases hcase with ⟨_, h⟩ | ⟨_, h⟩
    · rw [h]; exact hinv.liveHands hplay hf j
    · rw [h]
      by_cases hji : j = i
      · simp [setAt, hji, hcard1]
      · simpa [setAt, hji] using hinv.liveHands hplay hf j
  exact
    { cons := by
        have := hinv.cons
        rw [hdeck] at this
        simp [passTurn, hocc] at this ⊢
        exact this
      cards := by
        intro c hc
        simp [passTurn] at hc
        rcases hc with hc | hc
        · exact hinv.cards c (by simp [hdeck, hc])
        · rw [hc]; exact hback
      handsCard := by
        intro j
        rcases hcase with ⟨_, h⟩ | ⟨_, h⟩
        · simpa [passTurn, h] using hinv.handsCard j
        · by_cases hji : j = i
          · right; simpa [passTurn, h, setAt, hji] using hcard
          · simpa [passTurn, h, setAt, hji] using hinv.handsCard j
      liveHands := by
        intro _ _ j
        simpa [passTurn] using hhands j
      liveReady := by
        intro _ _ j
        simpa [passTurn] using hinv.liveReady hplay hf j
      liveToken := by
        intro _ _ _
        exact ⟨nextPlayerIndex i, passTurn_sole i s.g.turns (sole_of_live hinv hplay hf hturn)⟩
      quietToken := by
        intro _ _ j k hj hk
        have hs := passTurn_sole i s.g.turns (sole_of_live hinv hplay hf hturn)
        rw [(hs j).1 hj, (hs k).1 hk]
      preGrant := by
        intro h; simp [hd] at h
      readyEmpty := by
        intro j hj
        have := hinv.liveReady hplay hf j
        simp [passTurn] at hj
        rw [hj] at this; cases this
      atStart := by
        intro j hj
        by_cases hji : j = i
        · simp [setAt, hji] at hj
        · simp [setAt, hji] at hj
          have := (hinv.atStart j hj).2.2.2
          rw [hd] at this; cases this
      first := by
        intro _ h; simp [hd] at h
      firstPcs := by
        intro _ h; simp [hd] at h
      readyPc := by
        intro _ j hj
        have := hinv.liveReady hplay hf j
        simp [passTurn] at hj
        rw [hj] at this; cases this
      finished := hinv.finished
      finishing := by
        intro h; simp [hd] at h
      afterOpen := by
        intro h; simp [hd] at h
      readyWait := by
        intro h; simp [hd] at h
      grantPlay := by
        intro h; simp [hd] at h
      noWaiter := by
        intro hp j
        by_cases hji : j = i
        · simp [setAt, hji]
        · simpa [setAt, hji] using hinv.noWaiter hplay j
      rounds := hinv.rounds
      blockReady := by
        intro h; simp [hd] at h
      blockPcs := by
        intro h; simp [hd] at h
      dealHands := by
        intro h; simp [hd] at h
      dealt := by
        intro h; simp [hd] at h }

theorem wakeAll_ne (pc : Seat → PlayerPc) (j : Seat) : wakeAll pc j ≠ .openWait := by
  unfold wakeAll
  split
  · simp
  · assumption

theorem wakeAll_start (pc : Seat → PlayerPc) (j : Seat) (h : wakeAll pc j = .start) :
    pc j = .start := by
  unfold wakeAll at h
  split at h
  · cases h
  · exact h

theorem inv_dealerResetReady (s : Sys) (hinv : Inv s) (hd : s.dealerPc = .awaitReady)
    (hr : s.round < NUM_ROUNDS) (hready : allReady s.g = true) :
    Inv { s with g := resetReady s.g, dealerPc := .atDeal } := by
  have hall := (allReady_iff s.g).1 hready
  have hf := not_finished_of_awaitReady hinv hd
  have hplay := hinv.readyWait (Or.inl hd)
  rw [resetReady_eq]
  exact
    { cons := hinv.cons
      cards := hinv.cards
      handsCard := hinv.handsCard
      liveHands := by
        intro hp; simp [hplay] at hp
      liveReady := by
        intro hp; simp [hplay] at hp
      liveToken := by
        intro hp; simp [hplay] at hp
      quietToken := by
        intro h; cases h
      preGrant := by
        intro h; simp at h
      readyEmpty := by
        intro j hj; simp at hj
      atStart := by
        intro j hj
        have h1 := (hinv.atStart j hj).2.1
        rw [hall j] at h1; cases h1
      first := by
        intro h0 _ j
        exact hinv.first h0 (Or.inl hd) j
      firstPcs := by
        intro _ h; cases h
      readyPc := by
        intro _ j hj; simp at hj
      finished := by
        simp [hf]
      finishing := by
        intro h; simp at h
      afterOpen := by
        intro h; cases h
      readyWait := by
        intro _; exact hplay
      grantPlay := by
        intro h; cases h
      noWaiter := by
        intro hp; simp [hplay] at hp
      rounds := by
        refine ⟨hinv.rounds.1, fun _ => hr, ?_⟩
        intro h; simp at h
      blockReady := by
        intro _ _; rfl
      blockPcs := by
        intro _
        by_cases h0 : s.round = 0
        · refine Or.inr ⟨h0, ?_⟩
          intro j
          rcases hinv.firstPcs h0 hd j with h | h
          · have h1 := (hinv.atStart j h).2.1
            rw [hall j] at h1; cases h1
          · exact h
        · left
          intro j
          rcases hinv.readyPc hf j (hall j) with h | h
          · exact h
          · exact absurd h.1 h0
      dealHands := by
        intro _ j
        exact hinv.readyEmpty j (hall j)
      dealt := by
        intro h; simp at h }

/-- The deal of lines 153-158 on a shuffled pile of at least three cards. -/
theorem dealerDeal_eq (g : Game) (a b c : Int) (rest : List Int) :
    deal (shuffleDeck g (a :: b :: c :: rest)) =
      some { g with deck := rest
                    hands := setAt (setAt (setAt g.hands 0 a) 1 b) 2 c } := by
  have h := deal_cons (shuffleDeck g (a :: b :: c :: rest)) a b c rest rfl
  rw [h]
  rfl

/-- When the dealer is about to deal, all 52 cards are in the pile. -/
theorem full_deck_of_deal {s : Sys} (hinv : Inv s) (hd : s.dealerPc = .atDeal) :
    s.g.deck.length = NUM_SUITS * NUM_RANKS := by
  have := hinv.cons
  rw [occupied_empty _ (hinv.dealHands hd)] at this
  simpa using this

/-- When all players are ready, all 52 cards are in the pile. -/
theorem full_deck_of_ready {s : Sys} (hinv : Inv s) (hready : allReady s.g = true) :
    s.g.deck.length = NUM_SUITS * NUM_RANKS := by
  have he : ∀ i, s.g.hands i = -1 :=
    fun i => hinv.readyEmpty i ((allReady_iff s.g).1 hready i)
  have := hinv.cons
  rw [occupied_empty _ he] at this
  simpa using this

theorem inv_dealerDeal (s : Sys) (a b c : Int) (rest : List Int) (hinv : Inv s)
    (hd : s.dealerPc = .atDeal) (hperm : (a :: b :: c :: rest).Perm s.g.deck) :
    Inv { s with g := { s.g with deck := rest
                                 hands := setAt (setAt (setAt s.g.hands 0 a) 1 b) 2 c }
                 dealerPc := .atTurnReset } := by
  have hf : s.g.gameFinished = false := not_finished_of_loop hinv (by simp [hd])
  have hplay := hinv.readyWait (Or.inr (Or.inl hd))
  have hready := hinv.blockReady (Or.inl hd)
  have hlen := full_deck_of_deal hinv hd
  have hmem : ∀ x ∈ a :: b :: c :: rest, 0 ≤ x ∧ x < NUM_RANKS :=
    fun x hx => hinv.cards x (hperm.mem_iff.1 hx)
  have ha : 0 ≤ a ∧ a < 13 := by simpa using hmem a (by simp)
  have hb : 0 ≤ b ∧ b < 13 := by simpa using hmem b (by simp)
  have hc : 0 ≤ c ∧ c < 13 := by simpa using hmem c (by simp)
  have hhands : ∀ j, setAt (setAt (setAt s.g.hands 0 a) 1 b) 2 c j ≠ -1 := by
    rw [forall_seat]
    refine ⟨?_, ?_, ?_⟩ <;> simp [setAt] <;> omega
  exact
    { cons := by
        have h1 := hperm.length_eq
        rw [hlen] at h1
        simp only [List.length_cons] at h1
        rw [occupied_full _ hhands]
        simp only [NUM_PLAYERS] at *
        omega
      cards := by
        intro x hx
        exact hmem x (by simp [hx])
      handsCard := by
        rw [forall_seat]
        refine ⟨?_, ?_, ?_⟩ <;> right <;> simp [setAt] <;> omega
      liveHands := by
        intro hp; simp [hplay] at hp
      liveReady := by
        intro hp; simp [hplay] at hp
      liveToken := by
        intro hp; simp [hplay] at hp
      quietToken := by
        intro h; cases h
      preGrant := by
        intro h; simp at h
      readyEmpty := by
        intro j hj
        have := hready j
        simp at hj
        rw [hj] at this; cases this
      atStart := by
        intro j hj
        have := (hinv.atStart j hj).2.2.2
        rw [hd] at this; cases this
      first := by
        intro h0 _ j
        exact hinv.first h0 (Or.inr (Or.inl hd)) j
      firstPcs := by
        intro _ h; cases h
      readyPc := by
        intro _ j hj
        have := hready j
        simp at hj
        rw [hj] at this; cases this
      finished := by
        simp [hf]
      finishing := by
        intro h; simp at h
      afterOpen := by
        intro h; cases h
      readyWait := by
        intro _; exact hplay
      grantPlay := by
        intro h; cases h
      noWaiter := by
        intro hp; simp [hplay] at hp
      rounds := by
        refine ⟨hinv.rounds.1, fun _ => hinv.rounds.2.1 (Or.inl hd), ?_⟩
        intro h; simp at h
      blockReady := by
        intro _; exact hready
      blockPcs := by
        intro _; exact hinv.blockPcs (Or.inl hd)
      dealHands := by
        intro h; cases h
      dealt := by
        intro _; exact hhands }

theorem inv_dealerResetTurns (s : Sys) (hinv : Inv s) (hd : s.dealerPc = .atTurnReset) :
    Inv { s with g := resetTurns s.g, dealerPc := .atOpen } := by
  have hf : s.g.gameFinished = false := not_finished_of_loop hinv (by simp [hd])
  have hplay := hinv.readyWait (Or.inr (Or.inr (Or.inl hd)))
  have hready := hinv.blockReady (Or.inr (Or.inl hd))
  rw [resetTurns_eq]
  exact
    { cons := hinv.cons
      cards := hinv.cards
      handsCard := hinv.handsCard
      liveHands := by
        intro hp; simp [hplay] at hp
      liveReady := by
        intro hp; simp [hplay] at hp
      liveToken := by
        intro hp; simp [hplay] at hp
      quietToken := by
        intro h; cases h
      preGrant := by
        intro _ _; rfl
      readyEmpty := hinv.readyEmpty
      atStart := by
        intro j hj
        have := (hinv.atStart j hj).2.2.2
        rw [hd] at this; cases this
      first := by
        intro _ h; simp at h
      firstPcs := by
        intro _ h; cases h
      readyPc := by
        intro _ j hj
        have := hready j
        simp at hj
        rw [hj] at this; cases this
      finished := by
        simp [hf]
      finishing := by
        intro h; simp at h
      afterOpen := by
        intro h; cases h
      readyWait := by
        intro _; exact hplay
      grantPlay := by
        intro h; cases h
      noWaiter := by
        intro hp; simp [hplay] at hp
      rounds := by
        refine ⟨hinv.rounds.1, fun _ => hinv.rounds.2.1 (Or.inr (Or.inl hd)), ?_⟩
        intro h; simp at h
      blockReady := by
        intro _; exact hready
      blockPcs := by
        intro _; exact hinv.blockPcs (Or.inr (Or.inl hd))
      dealHands := by
        intro h; cases h
      dealt := by
        intro _; exact hinv.dealt (Or.inl hd) }

theorem inv_dealerOpen (s : Sys) (hinv : Inv s) (hd : s.dealerPc = .atOpen) :
    Inv { s with g := openRound s.g, dealerPc := .atGrant, pc := wakeAll s.pc } := by
  have hf : s.g.gameFinished = false := not_finished_of_loop hinv (by simp [hd])
  have hready := hinv.blockReady (Or.inr (Or.inr hd))
  exact
    { cons := hinv.cons
      cards := hinv.cards
      handsCard := hinv.handsCard
      liveHands := by
        intro _ _; exact hinv.dealt (Or.inr hd)
      liveReady := by
        intro _ _; exact hready
      liveToken := by
        intro _ _ h; cases h
      quietToken := by
        intro h; cases h
      preGrant := by
        intro _; exact hinv.preGrant (Or.inl hd)
      readyEmpty := hinv.readyEmpty
      atStart := by
        intro j hj
        have := (hinv.atStart j (wakeAll_start _ _ hj)).2.2.2
        rw [hd] at this; cases this
      first := by
        intro _ h; simp at h
      firstPcs := by
        intro _ h; cases h
      readyPc := by
        intro _ j hj
        have := hready j
        simp [openRound] at hj
        rw [hj] at this; cases this
      finished := by
        simp [openRound, hf]
      finishing := by
        intro h; simp at h
      afterOpen := by
        intro h; cases h
      readyWait := by
        intro h; simp at h
      grantPlay := by
        intro _; rfl
      noWaiter := by
        intro _ j; exact wakeAll_ne _ j
      rounds := by
        refine ⟨hinv.rounds.1, fun _ => hinv.rounds.2.1 (Or.inr (Or.inr (Or.inl hd))), ?_⟩
        intro h; simp at h
      blockReady := by
        intro h; simp at h
      blockPcs := by
        intro h; simp at h
      dealHands := by
        intro h; cases h
      dealt := by
        intro h; simp at h }

theorem inv_dealerGrant (s : Sys) (hinv : Inv s) (hd : s.dealerPc = .atGrant) :
    Inv { s with g := grant s.g (startingPlayer s.round), dealerPc := .awaitClose } := by
  have hf : s.g.gameFinished = false := not_finished_of_loop hinv (by simp [hd])
  have hplay := hinv.grantPlay hd
  have hturns := hinv.preGrant (Or.inr hd)
  exact
    { cons := hinv.cons
      cards := hinv.cards
      handsCard := hinv.handsCard
      liveHands := by
        intro _ _; exact hinv.liveHands hplay hf
      liveReady := by
        intro _ _; exact hinv.liveReady hplay hf
      liveToken := by
        intro _ _ _
        refine ⟨startingPlayer s.round, ?_⟩
        intro j
        by_cases hj : j = startingPlayer s.round
        · simp [grant, setAt, hj]
        · simp [grant, setAt, hj, hturns j]
      quietToken := by
        intro _ _ j k hj hk
        have hj1 : j = startingPlayer s.round := by
          by_contra hne; simp [grant, setAt, hne, hturns j] at hj
        have hk1 : k = startingPlayer s.round := by
          by_contra hne; simp [grant, setAt, hne, hturns k] at hk
        rw [hj1, hk1]
      preGrant := by
        intro h; simp at h
      readyEmpty := hinv.readyEmpty
      atStart := by
        intro j hj
        have := (hinv.atStart j hj).2.2.2
        rw [hd] at this; cases this
      first := by
        intro _ h; simp at h
      firstPcs := by
        intro _ h; cases h
      readyPc := by
        intro _ j hj
        have := hinv.liveReady hplay hf j
        simp [grant] at hj
        rw [hj] at this; cases this
      finished := by
        simp [grant, hf]
      finishing := by
        intro h; simp at h
      afterOpen := by
        intro h; cases h
      readyWait := by
        intro h; simp at h
      grantPlay := by
        intro h; cases h
      noWaiter := by
        intro _; exact hinv.noWaiter hplay
      rounds := by
        refine ⟨hinv.rounds.1, fun _ => hinv.rounds.2.1 (Or.inr (Or.inr (Or.inr (Or.inl hd)))), ?_⟩
        intro h; simp at h
      blockReady := by
        intro h; simp at h
      blockPcs := by
        intro h; simp at h
      dealHands := by
        intro h; cases h
      dealt := by
        intro h; simp at h }

theorem inv_dealerClose (s : Sys) (hinv : Inv s) (hd : s.dealerPc = .awaitClose)
    (hplay : s.g.play = false) :
    Inv { s with round := s.round + 1, dealerPc := .awaitReady } := by
  have hf : s.g.gameFinished = false := not_finished_of_loop hinv (by simp [hd])
  exact
    { cons := hinv.cons
      cards := hinv.cards
      handsCard := hinv.handsCard
      liveHands := by
        intro hp; simp [hplay] at hp
      liveReady := by
        intro hp; simp [hplay] at hp
      liveToken := by
        intro hp; simp [hplay] at hp
      quietToken := by
        intro h; cases h
      preGrant := by
        intro h; simp at h
      readyEmpty := hinv.readyEmpty
      atStart := by
        intro j hj
        have := (hinv.atStart j hj).2.2.2
        rw [hd] at this; cases this
      first := by
        intro h; simp at h
      firstPcs := by
        intro h; simp at h
      readyPc := by
        intro _ j hj
        rcases hinv.readyPc hf j hj with h | h
        · exact Or.inl h
        · have := h.2; rw [hd] at this; cases this
      finished := by
        simp [hf]
      finishing := by
        intro h; simp at h
      afterOpen := by
        intro h; cases h
      readyWait := by
        intro _; exact hplay
      grantPlay := by
        intro h; cases h
      noWaiter := by
        intro hp; simp [hplay] at hp
      rounds := by
        have := hinv.rounds.2.1 (Or.inr (Or.inr (Or.inr (Or.inr hd))))
        refine ⟨?_, ?_, ?_⟩
        · show s.round + 1 ≤ NUM_ROUNDS
          omega
        · intro h; simp at h
        · intro h; simp at h
      blockReady := by
        intro h; simp at h
      blockPcs := by
        intro h; simp at h
      dealHands := by
        intro h; cases h
      dealt := by
        intro h; simp at h }

theorem inv_dealerSetFinished (s : Sys) (hinv : Inv s) (hd : s.dealerPc = .awaitReady)
    (hr : ¬ s.round < NUM_ROUNDS) (hready : allReady s.g = true) :
    Inv { s with g := setFinished s.g, dealerPc := .finishGrant } := by
  have hall := (allReady_iff s.g).1 hready
  have hf := not_finished_of_awaitReady hinv hd
  have hplay := hinv.readyWait (Or.inl hd)
  exact
    { cons := hinv.cons
      cards := hinv.cards
      handsCard := hinv.handsCard
      liveHands := by
        intro _ h; simp [setFinished] at h
      liveReady := by
        intro _ h; simp [setFinished] at h
      liveToken := by
        intro _ h; simp [setFinished] at h
      quietToken := by
        intro h; cases h
      preGrant := by
        intro h; simp at h
      readyEmpty := hinv.readyEmpty
      atStart := by
        intro j hj
        have h1 := (hinv.atStart j hj).2.1
        rw [hall j] at h1; cases h1
      first := by
        intro _ h; simp at h
      firstPcs := by
        intro _ h; cases h
      readyPc := by
        intro h; simp [setFinished] at h
      finished := by
        simp [setFinished]
      finishing := by
        intro _
        refine ⟨hplay, ?_⟩
        intro j
        rcases hinv.readyPc hf j (hall j) with h | h
        · exact h
        · have := h.1
          simp only [NUM_ROUNDS] at hr
          omega
      afterOpen := by
        intro h; cases h
      readyWait := by
        intro h; simp at h
      grantPlay := by
        intro h; cases h
      noWaiter := by
        intro hp; simp [setFinished, hplay] at hp
      rounds := by
        have := hinv.rounds.1
        refine ⟨this, ?_, ?_⟩
        · intro h; simp at h
        · intro _
          show s.round = NUM_ROUNDS
          omega
      blockReady := by
        intro h; simp at h
      blockPcs := by
        intro h; simp at h
      dealHands := by
        intro h; cases h
      dealt := by
        intro h; simp at h }

theorem inv_dealerGrantAll (s : Sys) (hinv : Inv s) (hd : s.dealerPc = .finishGrant) :
    Inv { s with g := grantAll s.g, dealerPc := .finishOpen } := by
  have hfin := hinv.finishing (Or.inl hd)
  have hf : s.g.gameFinished = true := hinv.finished.2 (Or.inl hd)
  rw [grantAll_eq]
  exact
    { cons := hinv.cons
      cards := hinv.cards
      handsCard := hinv.handsCard
      liveHands := by
        intro _ h; simp [hf] at h
      liveReady := by
        intro _ h; simp [hf] at h
      liveToken := by
        intro _ h; simp [hf] at h
      quietToken := by
        intro h; cases h
      preGrant := by
        intro h; simp at h
      readyEmpty := hinv.readyEmpty
      atStart := by
        intro j hj
        have := hfin.2 j
        simp at hj
        rw [hj] at this; cases this
      first := by
        intro _ h; simp at h
      firstPcs := by
        intro _ h; cases h
      readyPc := by
        intro h; simp [hf] at h
      finished := by
        simp [hf]
      finishing := by
        intro _; exact hfin
      afterOpen := by
        intro h; cases h
      readyWait := by
        intro h; simp at h
      grantPlay := by
        intro h; cases h
      noWaiter := by
        intro hp; simp [hfin.1] at hp
      rounds := by
        refine ⟨hinv.rounds.1, ?_, ?_⟩
        · intro h; simp at h
        · intro _; exact hinv.rounds.2.2 (Or.inl hd)
      blockReady := by
        intro h; simp at h
      blockPcs := by
        intro h; simp at h
      dealHands := by
        intro h; cases h
      dealt := by
        intro h; simp at h }

theorem inv_dealerOpenFinal (s : Sys) (hinv : Inv s) (hd : s.dealerPc = .finishOpen) :
    Inv { s with g := openRound s.g, dealerPc := .done, pc := wakeAll s.pc } := by
  have hfin := hinv.finishing (Or.inr hd)
  have hf : s.g.gameFinished = true := hinv.finished.2 (Or.inr (Or.inl hd))
  exact
    { cons := hinv.cons
      cards := hinv.cards
      handsCard := hinv.handsCard
      liveHands := by
        intro _ h; simp [openRound, hf] at h
      liveReady := by
        intro _ h; simp [openRound, hf] at h
      liveToken := by
        intro _ h; simp [openRound, hf] at h
      quietToken := by
        intro h; cases h
      preGrant := by
        intro h; simp at h
      readyEmpty := hinv.readyEmpty
      atStart := by
        intro j hj
        have := hfin.2 j
        rw [wakeAll_start _ _ hj] at this; cases this
      first := by
        intro _ h; simp at h
      firstPcs := by
        intro _ h; cases h
      readyPc := by
        intro h; simp [openRound, hf] at h
      finished := by
        simp [openRound, hf]
      finishing := by
        intro h; simp at h
      afterOpen := by
        intro _
        refine ⟨rfl, ?_⟩
        intro j
        left
        simp [wakeAll, hfin.2 j]
      readyWait := by
        intro h; simp at h
      grantPlay := by
        intro h; cases h
      noWaiter := by
        intro _ j; exact wakeAll_ne _ j
      rounds := by
        refine ⟨hinv.rounds.1, ?_, ?_⟩
        · intro h; simp at h
        · intro _; exact hinv.rounds.2.2 (Or.inr (Or.inl hd))
      blockReady := by
        intro h; simp at h
      blockPcs := by
        intro h; simp at h
      dealHands := by
        intro h; cases h
      dealt := by
        intro h; simp at h }

/-- Under the invariant the dealer finds at least `NUM_PLAYERS` cards to deal. -/
theorem shuffled_cons {s : Sys} {shuffled : List Int} (hinv : Inv s)
    (hd : s.dealerPc = .atDeal) (hperm : shuffled.Perm s.g.deck) :
    ∃ a b c rest, shuffled = a :: b :: c :: rest := by
  have hlen := full_deck_of_deal hinv hd
  have h1 := hperm.length_eq
  rw [hlen] at h1
  rcases shuffled with _ | ⟨a, _ | ⟨b, _ | ⟨c, rest⟩⟩⟩
  · simp [NUM_SUITS, NUM_RANKS] at h1
  · simp [NUM_SUITS, NUM_RANKS] at h1
  · simp [NUM_SUITS, NUM_RANKS] at h1
  · exact ⟨a, b, c, rest, rfl⟩

/-- Under the invariant a live turn finds a card at the front of the pile. -/
theorem deck_cons_of_live {s : Sys} (hinv : Inv s) :
    ∃ card rest, s.g.deck = card :: rest := by
  have h1 := hinv.cons
  have h2 := occupied_eq s.g.hands
  rcases hd : s.g.deck with _ | ⟨card, rest⟩
  · rw [hd] at h1
    simp only [List.length_nil, NUM_SUITS, NUM_RANKS] at h1
    have : occupied s.g.hands ≤ 3 := by
      rw [h2]; split_ifs <;> omega
    omega
  · exact ⟨card, rest, rfl⟩

theorem playerTurn_cons (i : Seat) (coin : Int) (g : Game) (card : Int) (rest : List Int)
    (hdeck : g.deck = card :: rest) :
    playerTurn i coin g =
      some (if card = g.hands i then { g with deck := rest ++ [card], play := false }
        else if coin = 0 then passTurn i { g with deck := rest ++ [card], hands := g.hands }
        else passTurn i { g with deck := rest ++ [g.hands i], hands := setAt g.hands i card }) := by
  by_cases h1 : card = g.hands i
  · simp [playerTurn, hdeck, h1]
  · by_cases h2 : coin = 0
    · simp [playerTurn, hdeck, h1, h2]
    · simp [playerTurn, hdeck, h1, h2]

theorem playerGranted_live (i : Seat) (coin : Int) (g : Game) (hplay : g.play = true)
    (hf : g.gameFinished = false) :
    playerGranted i coin g = (playerTurn i coin g).map (fun g1 => (g1, PlayerPc.loopTop)) := by
  simp [playerGranted, hplay, hf]

theorem inv_playerGranted (s s1 : Sys) (i : Seat) (coin : Int) (hinv : Inv s)
    (hpc : s.pc i = .turnWait) (hturn : s.g.turns i = true)
    (hexec : exec (.playerGranted i coin) s = some s1) : Inv s1 := by
  have hf := not_finished_of_turnWait hinv hpc
  cases hplay : s.g.play
  · have : s1 = { s with g := playerCleanup i s.g, pc := setAt s.pc i .openWait } := by
      simp [exec, playerGranted, hplay] at hexec
      exact hexec.symm
    rw [this]
    exact inv_cleanup s i hinv hpc hturn hplay
  · obtain ⟨card, rest, hdeck⟩ := deck_cons_of_live hinv
    simp only [exec] at hexec
    rw [playerGranted_live i coin s.g hplay hf, playerTurn_cons i coin s.g card rest hdeck]
      at hexec
    simp only [Option.map_some', Option.some.injEq] at hexec
    rw [← hexec]
    by_cases h1 : card = s.g.hands i
    · rw [if_pos h1]
      exact inv_win s i card rest hinv hplay hf (dealer_of_turn hinv hplay hf hturn) hdeck
    · by_cases h2 : coin = 0
      · rw [if_neg h1, if_pos h2]
        exact inv_noMatch s i card card rest s.g.hands hinv hplay hf hturn hdeck
          (Or.inl ⟨rfl, rfl⟩)
      · rw [if_neg h1, if_neg h2]
        exact inv_noMatch s i card (s.g.hands i) rest (setAt s.g.hands i card) hinv hplay hf
          hturn hdeck (Or.inr ⟨rfl, rfl⟩)

/-- Every step keeps the invariant. -/
theorem inv_step {l : Label} {s s1 : Sys} (hinv : Inv s) (h : step l s = some s1) :
    Inv s1 := by
  obtain ⟨hen, hexec⟩ := step_eq h
  cases l with
  | playerStart i =>
    simp only [enabled, standsAt, signalled, Bool.and_true, decide_eq_true_eq] at hen
    simp only [exec, Option.some.injEq] at hexec
    rw [← hexec]
    exact inv_playerStart s i hinv hen
  | playerLoop i =>
    simp only [enabled, standsAt, signalled, Bool.and_true, decide_eq_true_eq] at hen
    simp only [exec, Option.some.injEq] at hexec
    rw [← hexec]
    exact inv_playerLoop s i hinv hen
  | playerGranted i coin =>
    simp only [enabled, standsAt, signalled, Bool.and_eq_true, decide_eq_true_eq] at hen
    exact inv_playerGranted s s1 i coin hinv hen.1 hen.2 hexec
  | playerWake i =>
    simp [enabled, signalled] at hen
  | dealerResetReady =>
    simp only [enabled, standsAt, signalled, Bool.and_eq_true, decide_eq_true_eq] at hen
    simp only [exec, Option.some.injEq] at hexec
    rw [← hexec]
    exact inv_dealerResetReady s hinv hen.1.1 hen.1.2 hen.2
  | dealerDeal shuffled =>
    simp only [enabled, standsAt, signalled, Bool.and_true, Bool.and_eq_true,
      decide_eq_true_eq] at hen
    obtain ⟨hd, hperm⟩ := hen
    obtain ⟨a, b, c, rest, hs⟩ := shuffled_cons hinv hd hperm
    subst hs
    simp only [exec, dealerDeal_eq, Option.map_some', Option.some.injEq] at hexec
    rw [← hexec]
    exact inv_dealerDeal s a b c rest hinv hd hperm
  | dealerResetTurns =>
    simp only [enabled, standsAt, signalled, Bool.and_true, decide_eq_true_eq] at hen
    simp only [exec, Option.some.injEq] at hexec
    rw [← hexec]
    exact inv_dealerResetTurns s hinv hen
  | dealerOpen =>
    simp only [enabled, standsAt, signalled, Bool.and_true, decide_eq_true_eq] at hen
    simp only [exec, Option.some.injEq] at hexec
    rw [← hexec]
    exact inv_dealerOpen s hinv hen
  | dealerGrant =>
    simp only [enabled, standsAt, signalled, Bool.and_true, decide_eq_true_eq] at hen
    simp only [exec, Option.some.injEq] at hexec
    rw [← hexec]
    exact inv_dealerGrant s hinv hen
  | dealerClose =>
    simp only [enabled, standsAt, signalled, Bool.and_eq_true, decide_eq_true_eq,
      Bool.not_eq_true'] at hen
    simp only [exec, Option.some.injEq] at hexec
    rw [← hexec]
    exact inv_dealerClose s hinv hen.1 hen.2
  | dealerSetFinished =>
    simp only [enabled, standsAt, signalled, Bool.and_eq_true, decide_eq_true_eq] at hen
    simp only [exec, Option.some.injEq] at hexec
    rw [← hexec]
    exact inv_dealerSetFinished s hinv hen.1.1 hen.1.2 hen.2
  | dealerGrantAll =>
    simp only [enabled, standsAt, signalled, Bool.and_true, decide_eq_true_eq] at hen
    simp only [exec, Option.some.injEq] at hexec
    rw [← hexec]
    exact inv_dealerGrantAll s hinv hen
  | dealerOpenFinal =>
    simp only [enabled, standsAt, signalled, Bool.and_true, decide_eq_true_eq] at hen
    simp only [exec, Option.some.injEq] at hexec
    rw [← hexec]
    exact inv_dealerOpenFinal s hinv hen

theorem run_cons (l : Label) (ls : List Label) (s s2 : Sys)
    (h : run (l :: ls) s = some s2) : ∃ s1, step l s = some s1 ∧ run ls s1 = some s2 := by
  simp only [run] at h
  cases hs : step l s with
  | none => rw [hs] at h; cases h
  | some s1 => rw [hs] at h; exact ⟨s1, rfl, h⟩

/-- The invariant holds along every schedule. -/
theorem inv_run_from (tr : List Label) : ∀ (s0 s : Sys), Inv s0 → run tr s0 = some s → Inv s := by
  induction tr with
  | nil =>
    intro s0 s h0 h
    simp only [run, Option.some.injEq] at h
    rw [← h]; exact h0
  | cons l ls ih =>
    intro s0 s h0 h
    obtain ⟨s1, h1, h2⟩ := run_cons l ls s0 s h
    exact ih s1 s (inv_step h0 h1) h2

/-- The invariant holds in every state reached from the start of the program. -/
theorem inv_run (tr : List Label) (s : Sys) (h : run tr Sys.initial = some s) : Inv s :=
  inv_run_from tr Sys.initial s inv_initial h

/-! ## Evaluating concrete schedules -/

theorem sameGame_eq {a b : Game} (h : sameGame a b = true) : a = b := by
  simp only [sameGame, Bool.and_eq_true, beq_iff_eq, List.all_eq_true, List.mem_finRange,
    true_implies] at h
  obtain ⟨⟨⟨⟨⟨h1, h2⟩, h3⟩, h4⟩, h5⟩, h6⟩ := h
  cases a; cases b
  simp only [Game.mk.injEq]
  exact ⟨h1, funext h2, h3, h4, funext h5, funext h6⟩

theorem sameSys_eq {a b : Sys} (h : sameSys a b = true) : a = b := by
  simp only [sameSys, Bool.and_eq_true, beq_iff_eq, List.all_eq_true, List.mem_finRange,
    true_implies] at h
  obtain ⟨⟨⟨h1, h2⟩, h3⟩, h4⟩ := h
  cases a; cases b
  simp only [Sys.mk.injEq]
  exact ⟨sameGame_eq h1, h2, h3, funext h4⟩

theorem run_of_reaches {tr : List Label} {s0 st : Sys} (h : reaches tr s0 st = true) :
    run tr s0 = some st := by
  unfold reaches at h
  split at h
  · rename_i s hs
    rw [hs, sameSys_eq h]
  · cases h

set_option maxRecDepth 100000 in
theorem run_winThenCleanup : run winThenCleanup Sys.initial = some afterWinnerCleanup :=
  run_of_reaches (by decide)

set_option maxRecDepth 100000 in
theorem run_openingMoves : run openingMoves Sys.initial = some afterOpening :=
  run_of_reaches (by decide)

set_option maxRecDepth 100000 in
theorem run_startUp : run startUp Sys.initial = some afterStartUp :=
  run_of_reaches (by decide)

set_option maxRecDepth 100000 in
theorem run_readyReset : run readyReset Sys.initial = some afterReadyReset :=
  run_of_reaches (by decide)

theorem runAny_of_reaches {tr : List Label} {s0 st : Sys} (h : reachesAny tr s0 st = true) :
    runAny tr s0 = some st := by
  unfold reachesAny at h
  split at h
  · rename_i s hs
    rw [hs, sameSys_eq h]
  · cases h

set_option maxRecDepth 100000 in
theorem run_upToDeal : run upToDeal Sys.initial = some afterDeal :=
  run_of_reaches (by decide)

set_option maxRecDepth 100000 in
theorem runAny_wake : runAny [.playerGranted 2 0] afterDeal = some afterWake :=
  runAny_of_reaches (by decide)

set_option maxRecDepth 100000 in
theorem run_afterWakeMoves : run afterWakeMoves afterWake = some extraCard :=
  run_of_reaches (by decide)

/-- A schedule of signalled steps is also a schedule of the system in which
waits may return without their signal. -/
theorem runAny_of_run (tr : List Label) : ∀ (s s2 : Sys), run tr s = some s2 →
    runAny tr s = some s2 := by
  induction tr with
  | nil => intro s s2 h; exact h
  | cons l ls ih =>
    intro s s2 h
    obtain ⟨s1, h1, h2⟩ := run_cons l ls s s2 h
    obtain ⟨hen, hexec⟩ := step_eq h1
    have hst : standsAt l s = true := by
      simp only [enabled, Bool.and_eq_true] at hen
      exact hen.1
    simp only [runAny, stepAny, hst, if_true, hexec, Option.some_bind]
    exact ih s1 s2 h2

set_option maxRecDepth 100000 in
theorem runAny_extraCard :
    runAny (upToDeal ++ .playerGranted 2 0 :: afterWakeMoves) Sys.initial = some extraCard :=
  runAny_of_reaches (by decide)
/-! ## Properties of the protocol -/

/-- C2, counterexample (conservation): the dealer has reset the ready flags and
dealt round 0 (hands `[0, 1, 2]`), `play` is still false and every player is
blocked in the turn wait of line 237. That wait of player 2 returns without a
signal; the `if` of line 236 is not evaluated again, so player 2 runs the
round-end cleanup: it puts its card on the pile and empties its hand. The round
then goes on with signalled waits only; on its turn player 2 draws `5`, keeps
it, and puts the `-1` of its empty hand on the pile (lines 333-334): the pile
has 50 entries and the three hands are occupied, 53 in all. -/
theorem cards_not_conserved_after_wake :
    run upToDeal Sys.initial = some afterDeal
      ∧ standsAt (.playerGranted 2 0) afterDeal = true
      ∧ signalled (.playerGranted 2 0) afterDeal = false
      ∧ runAny [.playerGranted 2 0] afterDeal = some afterWake
      ∧ run afterWakeMoves afterWake = some extraCard
      ∧ runAny (upToDeal ++ .playerGranted 2 0 :: afterWakeMoves) Sys.initial
          = some extraCard
      ∧ extraCard.g.deck.length + occupied extraCard.g.hands = 53
      ∧ ¬ (∀ (tr : List Label) (s : Sys), runAny tr Sys.initial = some s →
            s.g.deck.length + occupied s.g.hands = NUM_SUITS * NUM_RANKS) := by
  refine ⟨run_upToDeal, by decide, by decide, runAny_wake, run_afterWakeMoves,
    runAny_extraCard, by decide, ?_⟩
  intro h
  have := h _ extraCard runAny_extraCard
  exact absurd this (by decide)

/-- C2, amended (conservation under signalled waits): starting from
`deck = createDeck()` and empty hands, in every state reached by completed steps
in which every wait returns only after its signal (the ready reset, the deal,
live turns ending in win / keep-held / keep-drawn, round-end cleanups, and all
other steps of the threads) the number of cards in the pile plus the number of
occupied hands is `NUM_SUITS * NUM_RANKS = 52`. -/
theorem cards_conserved (tr : List Label) (s : Sys) (h : run tr Sys.initial = some s) :
    s.g.deck.length + occupied s.g.hands = NUM_SUITS * NUM_RANKS
      ∧ NUM_SUITS * NUM_RANKS = 52 :=
  ⟨(inv_run tr s h).cons, by decide⟩

/-- Witness of C2 amended: after the winner's cleanup the pile has 50 cards and
two hands are occupied. -/
theorem cards_conserved_witness :
    afterWinnerCleanup.g.deck.length + occupied afterWinnerCleanup.g.hands = 52 :=
  (cards_conserved winThenCleanup afterWinnerCleanup run_winThenCleanup).1

/-- Under the invariant the three draws of an enabled deal succeed. -/
theorem deal_ok {s : Sys} (hinv : Inv s) (shuffled : List Int)
    (hen : enabled (.dealerDeal shuffled) s = true) :
    NUM_PLAYERS ≤ shuffled.length
      ∧ (deal (shuffleDeck s.g shuffled)).isSome = true := by
  simp only [enabled, standsAt, signalled, Bool.and_true, Bool.and_eq_true,
    decide_eq_true_eq] at hen
  obtain ⟨a, b, c, rest, hs⟩ := shuffled_cons hinv hen.1 hen.2
  have hl : NUM_PLAYERS ≤ shuffled.length := by
    rw [hs]; simp [NUM_PLAYERS]
  exact ⟨hl, (deal_isSome _).2 (by simpa [shuffleDeck] using hl)⟩

/-- Under the invariant the draw of a live turn succeeds. -/
theorem playerTurn_ok {s : Sys} (hinv : Inv s) (i : Seat) (coin : Int) :
    (playerTurn i coin s.g).isSome = true := by
  obtain ⟨card, rest, hdeck⟩ := deck_cons_of_live hinv
  rw [playerTurn_cons i coin s.g card rest hdeck]
  rfl

/-- Under the invariant no step faults. -/
theorem exec_ok {s : Sys} (hinv : Inv s) (l : Label) (hen : enabled l s = true) :
    (exec l s).isSome = true := by
  cases l with
  | playerStart i => rfl
  | playerLoop i => rfl
  | playerGranted i coin =>
    simp only [exec, Option.isSome_map']
    unfold playerGranted
    split
    · rfl
    · split
      · rfl
      · simpa using playerTurn_ok hinv i coin
  | playerWake i => rfl
  | dealerResetReady => rfl
  | dealerDeal shuffled =>
    simpa [exec] using (deal_ok hinv shuffled hen).2
  | dealerResetTurns => rfl
  | dealerOpen => rfl
  | dealerGrant => rfl
  | dealerClose => rfl
  | dealerSetFinished => rfl
  | dealerGrantAll => rfl
  | dealerOpenFinal => rfl

/-- C8 (no draw from an empty pile): in every state reached from the initial
state (52-card pile, empty hands), an enabled deal finds at least `NUM_PLAYERS`
cards, so none of its three front-of-pile accesses faults; an enabled live turn
(`play` true, `gameFinished` false) finds a non-empty pile; and no enabled step
takes the fault branch. -/
theorem no_draw_from_empty_pile (tr : List Label) (s : Sys)
    (h : run tr Sys.initial = some s) :
    (∀ shuffled, enabled (.dealerDeal shuffled) s = true →
        NUM_PLAYERS ≤ shuffled.length
          ∧ (deal (shuffleDeck s.g shuffled)).isSome = true)
      ∧ (∀ i coin, enabled (.playerGranted i coin) s = true → s.g.play = true →
          s.g.gameFinished = false →
          s.g.deck ≠ [] ∧ (playerTurn i coin s.g).isSome = true)
      ∧ (∀ l, enabled l s = true → (exec l s).isSome = true) := by
  have hinv := inv_run tr s h
  refine ⟨fun shuffled hen => deal_ok hinv shuffled hen, ?_, fun l hen => exec_ok hinv l hen⟩
  intro i coin _ _ _
  obtain ⟨card, rest, hdeck⟩ := deck_cons_of_live hinv
  exact ⟨by simp [hdeck], playerTurn_ok hinv i coin⟩

/-- Witness of C8: after `readyReset` a deal from the unshuffled deck is enabled
and its three draws succeed; after `openingMoves` the live turn of player 1
finds a card in front. -/
theorem no_draw_from_empty_pile_witness :
    (NUM_PLAYERS ≤ createDeck.length
        ∧ (deal (shuffleDeck afterReadyReset.g createDeck)).isSome = true)
      ∧ (afterOpening.g.deck ≠ [] ∧ (playerTurn 1 0 afterOpening.g).isSome = true) :=
  ⟨(no_draw_from_empty_pile readyReset afterReadyReset run_readyReset).1 createDeck
      (by decide),
   (no_draw_from_empty_pile openingMoves afterOpening run_openingMoves).2.1 1 0
      (by decide) (by decide) (by decide)⟩
/-! ## Round count and the terminal marker -/

theorem playerTurn_finished (i : Seat) (coin : Int) (g g1 : Game)
    (h : playerTurn i coin g = some g1) : g1.gameFinished = g.gameFinished := by
  rcases hd : g.deck with _ | ⟨card, rest⟩
  · simp [playerTurn, hd] at h
  · rw [playerTurn_cons i coin g card rest hd] at h
    simp only [Option.some.injEq] at h
    rw [← h]
    split_ifs <;> rfl

end CardMatchingFight
